import Mathlib

set_option maxRecDepth 100000

/-!
Shallow embedding of VFFS (src/main.rs), an in-memory FUSE filesystem:
the inode model, the inode store with its total-size accounting, and the
request handlers create, mkdir, write, setattr, unlink, rmdir, rename,
read and readdir, translated function by function from the Rust source.

Machine integers are modelled as `Nat`; the explicit casts and the
wrapping arithmetic of the source (`as u16`, `as u64`, `as i64`,
`+=`/`-=` on `u64`) are modelled with explicit `% 2 ^ w` reductions.
-/

/-- Timestamps: a (seconds, nanoseconds) pair.
Modelled from the spec: the `utils` module (`time_now`,
`time_from_system_time`) is not part of the provided source; per the spec
these produce wall-clock instants, so each handler takes the current
instant as an explicit `now` argument and `time_from_system_time` is the
identity on instants. -/
abbrev Timespec := Int × Nat

/-- 2^64, the modulus of Rust `u64` arithmetic. -/
def U64MOD : Nat := 2 ^ 64

/-- Wrapping `u64` addition. -/
def u64add (a b : Nat) : Nat := (a + b) % U64MOD

/-- Wrapping `u64` subtraction `a - b`. -/
def u64sub (a b : Nat) : Nat := (a + U64MOD - b % U64MOD) % U64MOD

/-- `v as i64` for a `u64` value `v`. -/
def toI64 (v : Nat) : Int := if v < 2 ^ 63 then (v : Int) else (v : Int) - 2 ^ 64

/-- `x as u64` for an `i64` value `x`. -/
def i64toU64 (x : Int) : Nat := (x % ((2 ^ 64 : Nat) : Int)).toNat

/-- Bitwise `!umask` on `u32`. -/
def u32not (u : Nat) : Nat := 2 ^ 32 - 1 - u % 2 ^ 32

/-- `(mode & !umask) as u16`: the permission bits stored by create/mkdir. -/
def modeMask (mode umask : Nat) : Nat := Nat.land (mode % 2 ^ 32) (u32not umask) % 2 ^ 16

/-- UTF-8 continuation byte (`0x80..=0xBF`). -/
def isCont (b : Nat) : Bool := decide (0x80 ≤ b ∧ b ≤ 0xBF)

/-- The UTF-8 encoding of U+FFFD REPLACEMENT CHARACTER. -/
def repBytes : List Nat := [0xEF, 0xBF, 0xBD]

/-- Allowed second byte of a multi-byte UTF-8 sequence with leading byte `b`. -/
def cont2ok (b c : Nat) : Bool :=
  if b = 0xE0 then decide (0xA0 ≤ c ∧ c ≤ 0xBF)
  else if b = 0xED then decide (0x80 ≤ c ∧ c ≤ 0x9F)
  else if b = 0xF0 then decide (0x90 ≤ c ∧ c ≤ 0xBF)
  else if b = 0xF4 then decide (0x80 ≤ c ∧ c ≤ 0x8F)
  else isCont c

/-- Fuel-indexed body of `utf8Lossy`. Every step consumes at least one
byte, so fuel equal to the list length never runs out; the fuel only makes
the recursion structural. -/
def utf8LossyFuel : Nat → List Nat → List Nat
  | _, [] => []
  | 0, _ :: _ => []
  | fuel + 1, b :: t =>
    if b ≤ 0x7F then b :: utf8LossyFuel fuel t
    else if 0xC2 ≤ b ∧ b ≤ 0xDF then
      match t with
      | [] => repBytes
      | c1 :: t1 =>
        if isCont c1 then b :: c1 :: utf8LossyFuel fuel t1
        else repBytes ++ utf8LossyFuel fuel t
    else if 0xE0 ≤ b ∧ b ≤ 0xEF then
      match t with
      | [] => repBytes
      | c1 :: t1 =>
        if cont2ok b c1 then
          match t1 with
          | [] => repBytes
          | c2 :: t2 =>
            if isCont c2 then b :: c1 :: c2 :: utf8LossyFuel fuel t2
            else repBytes ++ utf8LossyFuel fuel t1
        else repBytes ++ utf8LossyFuel fuel t
    else if 0xF0 ≤ b ∧ b ≤ 0xF4 then
      match t with
      | [] => repBytes
      | c1 :: t1 =>
        if cont2ok b c1 then
          match t1 with
          | [] => repBytes
          | c2 :: t2 =>
            if isCont c2 then
              match t2 with
              | [] => repBytes
              | c3 :: t3 =>
                if isCont c3 then b :: c1 :: c2 :: c3 :: utf8LossyFuel fuel t3
                else repBytes ++ utf8LossyFuel fuel t2
            else repBytes ++ utf8LossyFuel fuel t1
        else repBytes ++ utf8LossyFuel fuel t
    else repBytes ++ utf8LossyFuel fuel t

/-- `String::from_utf8_lossy` on a byte sequence: valid UTF-8 sequences are
kept verbatim, each maximal invalid subpart is replaced by U+FFFD
(`repBytes`), resuming at the first offending byte. -/
def utf8Lossy (l : List Nat) : List Nat := utf8LossyFuel l.length l

/-- File vs Directory: the restriction of `fuser::FileType` used by VFFS. -/
inductive FType
  | file
  | directory
deriving DecidableEq, Repr

/-- A regular file payload: its name and content buffer. The Rust content
buffer is a `String`; it is represented by its UTF-8 bytes, every write
going through `String::from_utf8_lossy`. -/
structure File where
  name : String
  data : List Nat
deriving DecidableEq, Repr

/-- A directory payload: its name and the ordered children list of
`(child_id, child_name, kind)` entries. -/
structure Directory where
  name : String
  nodes : List (Nat × String × FType)
deriving DecidableEq, Repr

/-- The variant payload of an inode. -/
inductive InodeData
  | file (f : File)
  | directory (d : Directory)
deriving DecidableEq, Repr

/-- An inode of the filesystem. -/
structure Inode where
  id : Nat
  size : Nat
  updated_at : Timespec
  accessed_at : Timespec
  metadata_change_at : Timespec
  data : InodeData
  mode : Nat
  hardlinks : Nat
  uid : Nat
  gid : Nat
  xattrs : List (List Nat × List Nat)
deriving DecidableEq, Repr

/-- `File::write_date`: append the lossy-converted bytes to the content. -/
def File.write_date (f : File) (d : List Nat) : File :=
  { f with data := f.data ++ utf8Lossy d }

/-- `Directory::add_node`: push an entry to the end of the children list. -/
def Directory.add_node (dir : Directory) (e : Nat × String × FType) : Directory :=
  { dir with nodes := dir.nodes ++ [e] }

/-- Linear scan of a children list for the first entry with a given name. -/
def findByName : List (Nat × String × FType) → String → Option (Nat × String × FType)
  | [], _ => none
  | e :: t, n => if e.2.1 = n then some e else findByName t n

/-- `Directory::find_node_by_name`: first entry with the given name. -/
def Directory.find_node_by_name (dir : Directory) (name : String) : Option (Nat × String × FType) :=
  findByName dir.nodes name

/-- `Inode::is_file`. -/
def Inode.is_file (i : Inode) : Bool :=
  match i.data with
  | .file _ => true
  | .directory _ => false

/-- `Inode::is_directory`. -/
def Inode.is_directory (i : Inode) : Bool :=
  match i.data with
  | .directory _ => true
  | .file _ => false

/-- `Inode::update_changes`: set modification and metadata-change times. -/
def Inode.update_changes (i : Inode) (now : Timespec) : Inode :=
  { i with updated_at := now, metadata_change_at := now }

/-- `Inode::append_file_to_directory`: add a child entry; on a non-directory
inode the source only logs an error and leaves the inode unchanged. -/
def Inode.append_file_to_directory (i : Inode) (e : Nat × String × FType) : Inode :=
  match i.data with
  | .directory d => { i with data := .directory (d.add_node e) }
  | .file _ => i

/-- First-match lookup in the id → inode association list (`HashMap::get`). -/
def lookupInode : List (Nat × Inode) → Nat → Option Inode
  | [], _ => none
  | (k, v) :: t, key => if k = key then some v else lookupInode t key

/-- `HashMap::insert`: replace the binding of `key`, or add it. -/
def insertInode : List (Nat × Inode) → Nat → Inode → List (Nat × Inode)
  | [], key, v => [(key, v)]
  | (k, w) :: t, key, v => if k = key then (key, v) :: t else (k, w) :: insertInode t key v

/-- `HashMap::remove`: drop the binding of `key`. -/
def eraseInode : List (Nat × Inode) → Nat → List (Nat × Inode)
  | [], _ => []
  | (k, w) :: t, key => if k = key then t else (k, w) :: eraseInode t key

/-- The filesystem state: the inode map, the `total_size` counter, and the
serial-number counter (the `INODE_SERIAL_NUMER` static of the source). -/
structure VFFS where
  inodes : List (Nat × Inode)
  size : Nat
  nextId : Nat
deriving DecidableEq, Repr

/-- `MAX_NODE_NAME_LENGTH`. -/
def MAX_NODE_NAME_LENGTH : Nat := 255

/-- The process-wide limits `MAX_MEMORY` and `MAX_FILE_SIZE` (bytes). -/
structure Config where
  maxMemory : Nat
  maxFileSize : Nat
deriving DecidableEq, Repr

/-- `Inode::new(DIR_MODE, mount, FUSE_ROOT_ID)`: the root inode.
`rootSize` stands for the platform constant
`size_of::<Inode>() + size_of::<Directory>()` the source stores as the
root's size. -/
def Inode.mkRoot (rootSize : Nat) (mount : String) (now : Timespec) : Inode :=
  { id := 1, size := rootSize, updated_at := now, accessed_at := now,
    metadata_change_at := now, data := .directory { name := mount, nodes := [] },
    mode := 0o777, hardlinks := 0, uid := 0, gid := 0, xattrs := [] }

/-- `VFFS::new`: root pre-populated, `size` counter started at 0. -/
def VFFS.new (rootSize : Nat) (mount : String) (now : Timespec) : VFFS :=
  { inodes := [(1, Inode.mkRoot rootSize mount now)], size := 0, nextId := 2 }

/-- `VFFS::append_inode`: add the inode, adding its size to the total. -/
def VFFS.append_inode (s : VFFS) (i : Inode) : VFFS :=
  { s with size := u64add s.size i.size, inodes := insertInode s.inodes i.id i }

/-- `VFFS::remove_inode`: remove the inode, subtracting its size. -/
def VFFS.remove_inode (s : VFFS) (id : Nat) : VFFS :=
  match lookupInode s.inodes id with
  | some i => { s with size := u64sub s.size i.size, inodes := eraseInode s.inodes id }
  | none => s

/-- The POSIX error codes surfaced by the handlers. -/
inductive Errno
  | ENOENT
  | ENOTDIR
  | EISDIR
  | EEXIST
  | ENOTEMPTY
  | ENAMETOOLONG
  | EFBIG
  | ENOMEM
  | EACCES
  | EINVAL
  | EIO
deriving DecidableEq, Repr

/-- The kind of an inode's payload. -/
def InodeData.kind : InodeData → FType
  | .file _ => .file
  | .directory _ => .directory

/-- `BLOCK_SIZE`. -/
def BLOCK_SIZE : Nat := 512

/-- `From<&Inode> for FileAttr`: the attribute record sent to the bridge. -/
structure FileAttr where
  ino : Nat
  size : Nat
  blocks : Nat
  atime : Timespec
  mtime : Timespec
  ctime : Timespec
  crtime : Timespec
  kind : FType
  perm : Nat
  nlink : Nat
  uid : Nat
  gid : Nat
  rdev : Nat
  blksize : Nat
  flags : Nat
deriving DecidableEq, Repr

/-- The attribute projection of an inode (`impl From<&Inode> for FileAttr`). -/
def Inode.attr (i : Inode) : FileAttr :=
  { ino := i.id, size := i.size, blocks := (i.size + BLOCK_SIZE - 1) / BLOCK_SIZE,
    atime := i.accessed_at, mtime := i.updated_at, ctime := i.metadata_change_at,
    crtime := (0, 0), kind := i.data.kind, perm := i.mode, nlink := i.hardlinks,
    uid := i.uid, gid := i.gid, rdev := 0, blksize := BLOCK_SIZE, flags := 0 }

/-- `VFFS::write_file_data`. Returns the post-call state and the error, if
any. Exactly as in the source, the content buffer is appended to before
the EFBIG check, and the inode's size and timestamps are set before the
ENOMEM check; error returns keep those mutations. -/
def VFFS.write_file_data (s : VFFS) (cfg : Config) (inodeId : Nat) (data : List Nat)
    (now : Timespec) : VFFS × Option Errno :=
  let dataLen := data.length % U64MOD
  match lookupInode s.inodes inodeId with
  | none => (s, some .ENOENT)
  | some inode =>
    match inode.data with
    | .directory _ => (s, some .EISDIR)
    | .file vf =>
      let oldSize := inode.size
      let vf2 := vf.write_date data
      let finalSize := u64add oldSize dataLen
      if cfg.maxFileSize < finalSize then
        ({ s with inodes := insertInode s.inodes inodeId { inode with data := .file vf2 } },
          some .EFBIG)
      else
        let inode2 := (Inode.update_changes
          { inode with data := .file vf2, size := finalSize } now)
        let sizeDiff : Int := toI64 finalSize - toI64 oldSize
        let s2 : VFFS := { s with inodes := insertInode s.inodes inodeId inode2 }
        let newTotal := i64toU64 (toI64 s.size + sizeDiff)
        if cfg.maxMemory < newTotal then (s2, some .ENOMEM)
        else ({ s2 with size := newTotal }, none)

/-- The reply of the `create` handler: `reply.created(ttl, attr, generation,
fh, flags)` or `reply.error(e)`. -/
inductive CReply
  | created (attr : FileAttr) (generation : Nat) (fh : Nat) (flags : Nat)
  | error (e : Errno)
deriving DecidableEq, Repr

/-- The `create` handler. -/
def VFFS.create (s : VFFS) (parent : Nat) (name : String) (mode umask : Nat)
    (uid gid : Nat) (now : Timespec) : VFFS × CReply :=
  if MAX_NODE_NAME_LENGTH < name.utf8ByteSize then (s, .error .ENAMETOOLONG)
  else
    match lookupInode s.inodes parent with
    | none => (s, .error .ENOENT)
    | some p =>
      if p.is_directory then
        let newInode : Inode :=
          { id := s.nextId, size := 0, updated_at := now, accessed_at := now,
            metadata_change_at := now, data := .file { name := name, data := [] },
            mode := modeMask mode umask, hardlinks := 1, uid := uid, gid := gid,
            xattrs := [] }
        let s0 : VFFS := { s with nextId := s.nextId + 1 }
        let attr := newInode.attr
        let s1 := s0.append_inode newInode
        match lookupInode s1.inodes parent with
        | some p1 =>
          let p2 := p1.append_file_to_directory (newInode.id, name, .file)
          ({ s1 with inodes := insertInode s1.inodes parent p2 }, .created attr 0 0 0)
        | none => (s1, .error .ENOENT)
      else (s, .error .ENOTDIR)

/-- The reply of the `mkdir` handler: `reply.entry(ttl, attr, generation)`
or `reply.error(e)`. -/
inductive EntryReply
  | entry (attr : FileAttr) (generation : Nat)
  | error (e : Errno)
deriving DecidableEq, Repr

/-- The `mkdir` handler. -/
def VFFS.mkdir (s : VFFS) (parent : Nat) (name : String) (mode umask : Nat)
    (uid gid : Nat) (now : Timespec) : VFFS × EntryReply :=
  if MAX_NODE_NAME_LENGTH < name.utf8ByteSize then (s, .error .ENAMETOOLONG)
  else
    match lookupInode s.inodes parent with
    | none => (s, .error .ENOENT)
    | some p =>
      match p.data with
      | .file _ => (s, .error .ENOTDIR)
      | .directory d =>
        if (d.find_node_by_name name).isSome then (s, .error .EEXIST)
        else
          let p1 := p.update_changes now
          let sA : VFFS := { s with inodes := insertInode s.inodes parent p1 }
          let newInode : Inode :=
            { id := sA.nextId, size := 0, updated_at := now, accessed_at := now,
              metadata_change_at := now,
              data := .directory { name := name, nodes := [] },
              mode := modeMask mode umask, hardlinks := 1, uid := uid, gid := gid,
              xattrs := [] }
          let s0 : VFFS := { sA with nextId := sA.nextId + 1 }
          let attr := newInode.attr
          let s1 := s0.append_inode newInode
          match lookupInode s1.inodes parent with
          | some p2 =>
            let p3 := p2.append_file_to_directory (newInode.id, name, .directory)
            ({ s1 with inodes := insertInode s1.inodes parent p3 }, .entry attr 0)
          | none => (s1, .error .ENOENT)

/-- The reply of `getattr`/`setattr`: attributes or an error. -/
inductive AttrReply
  | attr (a : FileAttr)
  | error (e : Errno)
deriving DecidableEq, Repr

/-- `fuser::TimeOrNow`. -/
inductive TimeOrNow
  | specific (t : Timespec)
  | now
deriving DecidableEq, Repr

/-- The `setattr` handler: apply each provided field, then update the
modification and metadata-change timestamps. -/
def VFFS.setattr (s : VFFS) (ino : Nat) (mode uid gid : Option Nat) (size : Option Nat)
    (atime : Option TimeOrNow) (now : Timespec) : VFFS × AttrReply :=
  match lookupInode s.inodes ino with
  | none => (s, .error .ENOENT)
  | some inode =>
    let i1 : Inode :=
      { inode with
        mode := match mode with | some m => m % 2 ^ 16 | none => inode.mode,
        uid := uid.getD inode.uid,
        gid := gid.getD inode.gid,
        size := size.getD inode.size,
        accessed_at := match atime with
          | some (.specific t) => t
          | some .now => now
          | none => inode.accessed_at }
    let i2 := i1.update_changes now
    ({ s with inodes := insertInode s.inodes ino i2 }, .attr i2.attr)

/-- The reply of `unlink`/`rmdir`/`rename`: `reply.ok()`, an error, or a
process abort from an `unwrap`/`expect` on a broken store. -/
inductive EmptyReply
  | ok
  | error (e : Errno)
  | panic
deriving DecidableEq, Repr

/-- The `unlink` handler: remove every child entry bearing the name, then
remove the inode referenced by the first matching entry. -/
def VFFS.unlink (s : VFFS) (parent : Nat) (name : String) (now : Timespec) :
    VFFS × EmptyReply :=
  match lookupInode s.inodes parent with
  | none => (s, .error .ENOENT)
  | some p =>
    match p.data with
    | .file _ => (s, .error .ENOTDIR)
    | .directory d =>
      match d.find_node_by_name name with
      | none => (s, .error .ENOENT)
      | some e =>
        let p1 : Inode :=
          { p with data := .directory { d with nodes := d.nodes.filter (fun x => x.2.1 != name) } }
        let p2 := p1.update_changes now
        let s1 : VFFS := { s with inodes := insertInode s.inodes parent p2 }
        (s1.remove_inode e.1, .ok)

/-- The `rmdir` handler. -/
def VFFS.rmdir (s : VFFS) (parent : Nat) (name : String) (now : Timespec) :
    VFFS × EmptyReply :=
  match lookupInode s.inodes parent with
  | none => (s, .error .ENOENT)
  | some p =>
    match p.data with
    | .file _ => (s, .error .ENOTDIR)
    | .directory d =>
      match d.find_node_by_name name with
      | none => (s, .error .ENOENT)
      | some e =>
        match lookupInode s.inodes e.1 with
        | none => (s, .error .ENOENT)
        | some target =>
          match target.data with
          | .file _ => (s, .error .ENOTDIR)
          | .directory td =>
            if td.nodes.isEmpty then
              let p1 : Inode :=
                { p with data := .directory { d with nodes := d.nodes.filter (fun x => x.2.1 != name) } }
              let p2 := p1.update_changes now
              let s1 : VFFS := { s with inodes := insertInode s.inodes parent p2 }
              (s1.remove_inode e.1, .ok)
            else (s, .error .ENOTEMPTY)

/-- The commit phase of `rename` (everything after the target checks):
remove a replaced target, unlink the source entry from the old parent,
append it under the new name to the new parent, rename the source payload. -/
def VFFS.rename_commit (s : VFFS) (parent : Nat) (name : String) (newParent : Nat)
    (newName : String) (srcId : Nat) (tgt : Option Nat) (now : Timespec) :
    VFFS × EmptyReply :=
  let sA : VFFS :=
    match tgt with
    | some tgtId =>
      let s1 := s.remove_inode tgtId
      match lookupInode s1.inodes newParent with
      | some np =>
        match np.data with
        | .directory d =>
          let np1 : Inode := { np with data := .directory { d with nodes := d.nodes.filter (fun x => x.1 != tgtId) } }
          { s1 with inodes := insertInode s1.inodes newParent np1 }
        | .file _ => s1
      | none => s1
    | none => s
  match lookupInode sA.inodes parent with
  | none => (sA, .panic)
  | some pI =>
    let pI1 := pI.update_changes now
    match pI1.data with
    | .file _ => ({ sA with inodes := insertInode sA.inodes parent pI1 }, .error Errno.EIO)
    | .directory pd =>
      match pd.find_node_by_name name with
      | none => ({ sA with inodes := insertInode sA.inodes parent pI1 }, .panic)
      | some src =>
        let pI2 : Inode :=
          { pI1 with data := .directory { pd with nodes := pd.nodes.filter (fun x => x.1 != srcId) } }
        let sB : VFFS := { sA with inodes := insertInode sA.inodes parent pI2 }
        match lookupInode sB.inodes newParent with
        | none => (sB, .panic)
        | some npI =>
          let npI1 := npI.update_changes now
          let npI2 : Inode :=
            match npI1.data with
            | .directory d => { npI1 with data := .directory (d.add_node (srcId, newName, src.2.2)) }
            | .file _ => npI1
          let sC : VFFS := { sB with inodes := insertInode sB.inodes newParent npI2 }
          match lookupInode sC.inodes srcId with
          | none => (sC, .panic)
          | some srcI =>
            let srcI1 : Inode :=
              { srcI with
                metadata_change_at := now,
                data := match srcI.data with
                  | .file f => .file { f with name := newName }
                  | .directory d2 => .directory { d2 with name := newName } }
            ({ sC with inodes := insertInode sC.inodes srcId srcI1 }, .ok)

/-- The `rename` handler. -/
def VFFS.rename (s : VFFS) (parent : Nat) (name : String) (newParent : Nat)
    (newName : String) (now : Timespec) : VFFS × EmptyReply :=
  if MAX_NODE_NAME_LENGTH < newName.utf8ByteSize then (s, .error .ENAMETOOLONG)
  else
    match lookupInode s.inodes parent with
    | none => (s, .error .ENOENT)
    | some pI =>
      match pI.data with
      | .file _ => (s, .error .ENOTDIR)
      | .directory pDir =>
        match pDir.find_node_by_name name with
        | none => (s, .error .ENOENT)
        | some srcE =>
          match lookupInode s.inodes newParent with
          | none => (s, .error .ENOENT)
          | some npI =>
            match npI.data with
            | .file _ => (s, .error .ENOTDIR)
            | .directory npDir =>
              match npDir.find_node_by_name newName with
              | some tgtE =>
                if tgtE.1 = srcE.1 then (s, .ok)
                else
                  match lookupInode s.inodes tgtE.1 with
                  | none => (s, .panic)
                  | some tgtI =>
                    match tgtI.data with
                    | .directory td =>
                      if td.nodes.isEmpty then
                        s.rename_commit parent name newParent newName srcE.1 (some tgtE.1) now
                      else (s, .error .ENOTEMPTY)
                    | .file _ =>
                      s.rename_commit parent name newParent newName srcE.1 (some tgtE.1) now
              | none => s.rename_commit parent name newParent newName srcE.1 none now

/-- The reply of the `read` handler. -/
inductive DataReply
  | bytes (b : List Nat)
  | error (e : Errno)
deriving DecidableEq, Repr

/-- The `read` handler: empty past the end, else up to `size` bytes from
`offset`. -/
def VFFS.read (s : VFFS) (ino : Nat) (offset : Nat) (size : Nat) : DataReply :=
  match lookupInode s.inodes ino with
  | none => .error .ENOENT
  | some node =>
    match node.data with
    | .file vf =>
      if vf.data.length ≤ offset then .bytes []
      else .bytes ((vf.data.drop offset).take (min size (vf.data.length - offset)))
    | .directory _ => .error .EISDIR

/-- One entry offered to the readdir reply buffer:
`reply.add(child_id, cursor, kind, name)`. -/
structure DirEntry where
  id : Nat
  cursor : Int
  kind : FType
  name : String
deriving DecidableEq, Repr

/-- The readdir iteration: walk the children with a positional counter,
skip positions below `offset`, offer each remaining entry to the buffer at
cursor `position + 1`, stop when the buffer reports full. -/
def readdirLoop {β : Type} (add : β → DirEntry → Bool × β) :
    List (Nat × String × FType) → Int → Int → β → List DirEntry × β
  | [], _, _, buf => ([], buf)
  | e :: rest, entryOffset, offset, buf =>
    if offset ≤ entryOffset then
      let de : DirEntry := { id := e.1, cursor := entryOffset + 1, kind := e.2.2, name := e.2.1 }
      let r := add buf de
      if r.1 then ([de], r.2)
      else
        let rst := readdirLoop add rest (entryOffset + 1) offset r.2
        (de :: rst.1, rst.2)
    else readdirLoop add rest (entryOffset + 1) offset buf

/-- The reply of the `readdir` handler: the entries offered to the buffer,
or an error. -/
inductive ReaddirReply
  | ok (offered : List DirEntry)
  | error (e : Errno)
deriving DecidableEq, Repr

/-- The `readdir` handler, parameterized by the reply buffer `add`
behavior (`β` is the buffer state, `add` returns the buffer-full flag). -/
def VFFS.readdir {β : Type} (s : VFFS) (add : β → DirEntry → Bool × β) (ino : Nat)
    (offset : Int) (buf : β) : ReaddirReply × β :=
  match lookupInode s.inodes ino with
  | none => (.error .ENOENT, buf)
  | some inode =>
    match inode.data with
    | .directory d =>
      let r := readdirLoop add d.nodes 0 offset buf
      (.ok r.1, r.2)
    | .file _ => (.error .ENOTDIR, buf)

/-- A handler invocation, for stating properties of operation sequences. -/
inductive Op
  | create (parent : Nat) (name : String) (mode umask uid gid : Nat)
  | mkdir (parent : Nat) (name : String) (mode umask uid gid : Nat)
  | write (ino : Nat) (data : List Nat)
  | setattr (ino : Nat) (mode uid gid : Option Nat) (sz : Option Nat) (atime : Option TimeOrNow)
  | unlink (parent : Nat) (name : String)
  | rmdir (parent : Nat) (name : String)
  | rename (parent : Nat) (name : String) (newParent : Nat) (newName : String)
deriving DecidableEq, Repr

/-- Apply one handler call; the boolean records whether it succeeded. -/
def applyOp (cfg : Config) (s : VFFS) (now : Timespec) : Op → VFFS × Bool
  | .create parent name mode umask uid gid =>
    let r := s.create parent name mode umask uid gid now
    (r.1, match r.2 with | .created _ _ _ _ => true | .error _ => false)
  | .mkdir parent name mode umask uid gid =>
    let r := s.mkdir parent name mode umask uid gid now
    (r.1, match r.2 with | .entry _ _ => true | .error _ => false)
  | .write ino data =>
    let r := s.write_file_data cfg ino data now
    (r.1, r.2.isNone)
  | .setattr ino mode uid gid sz atime =>
    let r := s.setattr ino mode uid gid sz atime now
    (r.1, match r.2 with | .attr _ => true | .error _ => false)
  | .unlink parent name =>
    let r := s.unlink parent name now
    (r.1, match r.2 with | .ok => true | _ => false)
  | .rmdir parent name =>
    let r := s.rmdir parent name now
    (r.1, match r.2 with | .ok => true | _ => false)
  | .rename parent name newParent newName =>
    let r := s.rename parent name newParent newName now
    (r.1, match r.2 with | .ok => true | _ => false)

/-- Run a sequence of handler calls, requiring each to succeed. -/
def runOps (cfg : Config) : VFFS → List (Timespec × Op) → Option VFFS
  | s, [] => some s
  | s, (t, op) :: rest =>
    let r := applyOp cfg s t op
    if r.2 then runOps cfg r.1 rest else none

/-- Whether an operation is a `create` whose name is already present in the
(existing, directory) parent. -/
def createDup (s : VFFS) : Op → Bool
  | .create parent name _ _ _ _ =>
    match lookupInode s.inodes parent with
    | some p =>
      match p.data with
      | .directory d => (d.find_node_by_name name).isSome
      | .file _ => false
    | none => false
  | _ => false

/-- Run a sequence of successful handler calls in which no `create` reuses
a name already present in its parent. -/
def runOpsFreshNames (cfg : Config) : VFFS → List (Timespec × Op) → Option VFFS
  | s, [] => some s
  | s, (t, op) :: rest =>
    if createDup s op then none
    else
      let r := applyOp cfg s t op
      if r.2 then runOpsFreshNames cfg r.1 rest else none

/-- Whether an operation is anything but a `setattr` that provides a size. -/
def noSetattrSize : Op → Bool
  | .setattr _ _ _ _ sz _ => sz.isNone
  | _ => true

/-! ### Derived accessors used in statements -/

/-- `Inode::get_name`: the name embedded in the payload. -/
def Inode.get_name (i : Inode) : String :=
  match i.data with
  | .file f => f.name
  | .directory d => d.name

/-- The content buffer of a file inode, if `id` names one. -/
def fileContent (s : VFFS) (id : Nat) : Option (List Nat) :=
  match lookupInode s.inodes id with
  | some i =>
    match i.data with
    | .file f => some f.data
    | .directory _ => none
  | none => none

/-- The children list of a directory inode, if `id` names one. -/
def childrenOf (s : VFFS) (id : Nat) : Option (List (Nat × String × FType)) :=
  match lookupInode s.inodes id with
  | some i =>
    match i.data with
    | .directory d => some d.nodes
    | .file _ => none
  | none => none

/-- The child names of an inode (empty for files). -/
def dirNames (i : Inode) : List String :=
  match i.data with
  | .directory d => d.nodes.map (fun e => e.2.1)
  | .file _ => []

/-- The keys of the store are pairwise distinct (a `HashMap` fact). -/
def keysNodup (m : List (Nat × Inode)) : Prop := (m.map Prod.fst).Nodup

/-- Sum of the sizes of all non-root inodes of the store. -/
def sumNonRoot (m : List (Nat × Inode)) : Nat :=
  (m.map (fun p => if p.1 = 1 then 0 else p.2.size)).sum

/-- Sum of the sizes of all inodes of the store. -/
def sumSizes (m : List (Nat × Inode)) : Nat := (m.map (fun p => p.2.size)).sum

/-- (P4, second half): every File inode's size is within `max_file_size`. -/
def FilesCapped (cfg : Config) (s : VFFS) : Prop :=
  ∀ p ∈ s.inodes, p.2.is_file = true → p.2.size ≤ cfg.maxFileSize

/-- (P3): no directory has two children sharing a name. -/
def NamesUnique (s : VFFS) : Prop :=
  ∀ p ∈ s.inodes, (dirNames p.2).Nodup

instance (cfg : Config) (s : VFFS) : Decidable (FilesCapped cfg s) := by
  unfold FilesCapped
  exact List.decidableBAll _ _

instance (s : VFFS) : Decidable (NamesUnique s) := by
  unfold NamesUnique
  exact List.decidableBAll _ _

instance (m : List (Nat × Inode)) : Decidable (keysNodup m) := by
  unfold keysNodup
  infer_instance

/-- The children entries of an inode (empty for files). -/
def nodesOf (i : Inode) : List (Nat × String × FType) :=
  match i.data with
  | .directory d => d.nodes
  | .file _ => []

/-! ### Association-list lemmas for the inode store -/

theorem lookupInode_insert_self (m : List (Nat × Inode)) (k : Nat) (v : Inode) :
    lookupInode (insertInode m k v) k = some v := by
  induction m with
  | nil => simp [insertInode, lookupInode]
  | cons p t ih =>
    by_cases h : p.1 = k
    · simp [insertInode, h, lookupInode]
    · simp [insertInode, h, lookupInode, ih]

theorem lookupInode_insert_ne (m : List (Nat × Inode)) (k k' : Nat) (v : Inode)
    (h : k' ≠ k) : lookupInode (insertInode m k v) k' = lookupInode m k' := by
  have hkk : k ≠ k' := Ne.symm h
  induction m with
  | nil => simp [insertInode, lookupInode, hkk]
  | cons p t ih =>
    obtain ⟨a, w⟩ := p
    by_cases hp : a = k
    · subst hp
      simp [insertInode, lookupInode, hkk]
    · by_cases hp' : a = k'
      · simp [insertInode, hp, lookupInode, hp', hkk, h]
      · simp [insertInode, hp, lookupInode, hp', ih]

theorem lookupInode_erase_ne (m : List (Nat × Inode)) (k k' : Nat) (h : k' ≠ k) :
    lookupInode (eraseInode m k) k' = lookupInode m k' := by
  have hkk : k ≠ k' := Ne.symm h
  induction m with
  | nil => simp [eraseInode]
  | cons p t ih =>
    obtain ⟨a, w⟩ := p
    by_cases hp : a = k
    · subst hp
      simp [eraseInode, lookupInode, hkk]
    · by_cases hp' : a = k'
      · simp [eraseInode, hp, lookupInode, hp', hkk, h]
      · simp [eraseInode, hp, lookupInode, hp', ih]

theorem lookupInode_eq_none_iff (m : List (Nat × Inode)) (k : Nat) :
    lookupInode m k = none ↔ ∀ p ∈ m, p.1 ≠ k := by
  induction m with
  | nil => simp [lookupInode]
  | cons p t ih =>
    by_cases hp : p.1 = k
    · simp [lookupInode, hp]
    · simp [lookupInode, hp, ih]

theorem lookupInode_erase_self (m : List (Nat × Inode)) (k : Nat) (h : keysNodup m) :
    lookupInode (eraseInode m k) k = none := by
  induction m with
  | nil => simp [eraseInode, lookupInode]
  | cons p t ih =>
    simp only [keysNodup, List.map_cons, List.nodup_cons] at h
    by_cases hp : p.1 = k
    · subst hp
      rw [eraseInode]
      simp only [if_pos rfl]
      rw [lookupInode_eq_none_iff]
      intro q hq hqk
      exact h.1 (hqk ▸ List.mem_map_of_mem Prod.fst hq)
    · rw [eraseInode]
      simp only [if_neg hp]
      rw [lookupInode]
      simp only [if_neg hp]
      exact ih h.2

theorem lookupInode_mem (m : List (Nat × Inode)) (k : Nat) (v : Inode)
    (h : lookupInode m k = some v) : (k, v) ∈ m := by
  induction m with
  | nil => simp [lookupInode] at h
  | cons p t ih =>
    obtain ⟨a, w⟩ := p
    by_cases hp : a = k
    · rw [lookupInode, if_pos hp] at h
      injection h with h2
      subst hp h2
      exact List.mem_cons_self _ _
    · rw [lookupInode, if_neg hp] at h
      exact List.mem_cons_of_mem _ (ih h)

theorem mem_insertInode (m : List (Nat × Inode)) (k : Nat) (v : Inode) (q : Nat × Inode)
    (h : q ∈ insertInode m k v) : q = (k, v) ∨ q ∈ m := by
  induction m with
  | nil => simp [insertInode] at h; simp [h]
  | cons p t ih =>
    by_cases hp : p.1 = k
    · rw [insertInode, if_pos hp] at h
      rcases List.mem_cons.mp h with h1 | h1
      · exact Or.inl h1
      · exact Or.inr (List.mem_cons_of_mem _ h1)
    · rw [insertInode, if_neg hp] at h
      rcases List.mem_cons.mp h with h1 | h1
      · exact Or.inr (h1 ▸ List.mem_cons_self _ _)
      · rcases ih h1 with h2 | h2
        · exact Or.inl h2
        · exact Or.inr (List.mem_cons_of_mem _ h2)

theorem mem_insertInode_nodup (m : List (Nat × Inode)) (k : Nat) (v : Inode)
    (q : Nat × Inode) (hm : keysNodup m) (h : q ∈ insertInode m k v) :
    q = (k, v) ∨ (q ∈ m ∧ q.1 ≠ k) := by
  induction m with
  | nil => simp [insertInode] at h; simp [h]
  | cons p t ih =>
    simp only [keysNodup, List.map_cons, List.nodup_cons] at hm
    by_cases hp : p.1 = k
    · subst hp
      rw [insertInode, if_pos rfl] at h
      rcases List.mem_cons.mp h with h1 | h1
      · exact Or.inl h1
      · refine Or.inr ⟨List.mem_cons_of_mem _ h1, ?_⟩
        intro hq
        exact hm.1 (hq ▸ List.mem_map_of_mem Prod.fst h1)
    · rw [insertInode, if_neg hp] at h
      rcases List.mem_cons.mp h with h1 | h1
      · exact Or.inr ⟨h1 ▸ List.mem_cons_self _ _, h1 ▸ hp⟩
      · rcases ih hm.2 h1 with h2 | h2
        · exact Or.inl h2
        · exact Or.inr ⟨List.mem_cons_of_mem _ h2.1, h2.2⟩

theorem mem_eraseInode (m : List (Nat × Inode)) (k : Nat) (q : Nat × Inode)
    (h : q ∈ eraseInode m k) : q ∈ m := by
  induction m with
  | nil => simp [eraseInode] at h
  | cons p t ih =>
    by_cases hp : p.1 = k
    · rw [eraseInode, if_pos hp] at h
      exact List.mem_cons_of_mem _ h
    · rw [eraseInode, if_neg hp] at h
      rcases List.mem_cons.mp h with h1 | h1
      · exact h1 ▸ List.mem_cons_self _ _
      · exact List.mem_cons_of_mem _ (ih h1)

theorem keysNodup_insertInode (m : List (Nat × Inode)) (k : Nat) (v : Inode)
    (h : keysNodup m) : keysNodup (insertInode m k v) := by
  induction m with
  | nil => simp [insertInode, keysNodup]
  | cons p t ih =>
    simp only [keysNodup, List.map_cons, List.nodup_cons] at h
    by_cases hp : p.1 = k
    · subst hp
      rw [insertInode, if_pos rfl]
      simpa [keysNodup] using h
    · rw [insertInode, if_neg hp]
      simp only [keysNodup, List.map_cons, List.nodup_cons]
      refine ⟨?_, ih h.2⟩
      intro hmem
      rcases List.mem_map.mp hmem with ⟨q, hq, hq1⟩
      rcases mem_insertInode t k v q hq with h1 | h1
      · exact hp (by rw [h1] at hq1; exact hq1.symm)
      · exact h.1 (hq1 ▸ List.mem_map_of_mem Prod.fst h1)

theorem keysNodup_eraseInode (m : List (Nat × Inode)) (k : Nat)
    (h : keysNodup m) : keysNodup (eraseInode m k) := by
  induction m with
  | nil => simp [eraseInode, keysNodup]
  | cons p t ih =>
    simp only [keysNodup, List.map_cons, List.nodup_cons] at h
    by_cases hp : p.1 = k
    · rw [eraseInode, if_pos hp]
      exact h.2
    · rw [eraseInode, if_neg hp]
      simp only [keysNodup, List.map_cons, List.nodup_cons]
      refine ⟨?_, ih h.2⟩
      intro hmem
      rcases List.mem_map.mp hmem with ⟨q, hq, hq1⟩
      exact h.1 (hq1 ▸ List.mem_map_of_mem Prod.fst (mem_eraseInode t k q hq))

theorem lookupInode_isSome_insert (m : List (Nat × Inode)) (k : Nat) (v : Inode)
    (h : (lookupInode m k).isSome = true) (id : Nat) :
    (lookupInode (insertInode m k v) id).isSome = (lookupInode m id).isSome := by
  by_cases hid : id = k
  · subst hid
    rw [lookupInode_insert_self]
    simpa using h.symm
  · rw [lookupInode_insert_ne m k id v hid]

theorem forall_mem_insertInode {P : Nat × Inode → Prop} (m : List (Nat × Inode))
    (k : Nat) (v : Inode) (h : ∀ p ∈ m, P p) (hv : P (k, v)) :
    ∀ p ∈ insertInode m k v, P p := by
  intro p hp
  rcases mem_insertInode m k v p hp with h1 | h1
  · exact h1 ▸ hv
  · exact h p h1

theorem forall_mem_eraseInode {P : Nat × Inode → Prop} (m : List (Nat × Inode))
    (k : Nat) (h : ∀ p ∈ m, P p) : ∀ p ∈ eraseInode m k, P p :=
  fun p hp => h p (mem_eraseInode m k p hp)

theorem sumNonRoot_insert_fresh (m : List (Nat × Inode)) (k : Nat) (v : Inode)
    (h : lookupInode m k = none) :
    sumNonRoot (insertInode m k v) = sumNonRoot m + (if k = 1 then 0 else v.size) := by
  induction m with
  | nil => simp [insertInode, sumNonRoot]
  | cons p t ih =>
    obtain ⟨a, w⟩ := p
    rw [lookupInode] at h
    by_cases hp : a = k
    · rw [if_pos hp] at h
      exact (Option.some_ne_none w h).elim
    · rw [if_neg hp] at h
      rw [insertInode, if_neg hp]
      simp only [sumNonRoot, List.map_cons, List.sum_cons]
      have := ih h
      simp only [sumNonRoot] at this
      omega

theorem sumNonRoot_insert (m : List (Nat × Inode)) (k : Nat) (v w : Inode)
    (hv : lookupInode m k = some v) :
    sumNonRoot (insertInode m k w) + (if k = 1 then 0 else v.size)
      = sumNonRoot m + (if k = 1 then 0 else w.size) := by
  induction m with
  | nil => simp [lookupInode] at hv
  | cons p t ih =>
    obtain ⟨a, u⟩ := p
    rw [lookupInode] at hv
    by_cases hp : a = k
    · rw [if_pos hp] at hv
      injection hv with hv2
      subst hp hv2
      rw [insertInode, if_pos rfl]
      simp only [sumNonRoot, List.map_cons, List.sum_cons]
      by_cases h1 : a = 1 <;> (simp [h1]; try omega)
    · rw [if_neg hp] at hv
      rw [insertInode, if_neg hp]
      simp only [sumNonRoot, List.map_cons, List.sum_cons]
      have := ih hv
      simp only [sumNonRoot] at this
      omega

theorem sumNonRoot_insert_same_size (m : List (Nat × Inode)) (k : Nat) (v w : Inode)
    (hv : lookupInode m k = some v) (hs : w.size = v.size) :
    sumNonRoot (insertInode m k w) = sumNonRoot m := by
  have := sumNonRoot_insert m k v w hv
  rw [hs] at this
  omega

theorem sumNonRoot_erase (m : List (Nat × Inode)) (k : Nat) (v : Inode)
    (hv : lookupInode m k = some v) (hk : k ≠ 1) :
    sumNonRoot (eraseInode m k) + v.size = sumNonRoot m := by
  induction m with
  | nil => simp [lookupInode] at hv
  | cons p t ih =>
    obtain ⟨a, u⟩ := p
    rw [lookupInode] at hv
    by_cases hp : a = k
    · rw [if_pos hp] at hv
      injection hv with hv2
      subst hp hv2
      rw [eraseInode, if_pos rfl]
      simp only [sumNonRoot, List.map_cons, List.sum_cons, if_neg hk]
      omega
    · rw [if_neg hp] at hv
      rw [eraseInode, if_neg hp]
      simp only [sumNonRoot, List.map_cons, List.sum_cons]
      have := ih hv
      simp only [sumNonRoot] at this
      omega

theorem size_le_sumNonRoot (m : List (Nat × Inode)) (k : Nat) (v : Inode)
    (hv : lookupInode m k = some v) (hk : k ≠ 1) : v.size ≤ sumNonRoot m := by
  induction m with
  | nil => simp [lookupInode] at hv
  | cons p t ih =>
    obtain ⟨a, u⟩ := p
    rw [lookupInode] at hv
    simp only [sumNonRoot, List.map_cons, List.sum_cons]
    by_cases hp : a = k
    · rw [if_pos hp] at hv
      injection hv with hv2
      subst hp hv2
      simp only [if_neg hk]
      omega
    · rw [if_neg hp] at hv
      have := ih hv
      simp only [sumNonRoot] at this
      omega

/-! ### Lemmas about name lookup in children lists -/

theorem findByName_eq_none_iff (l : List (Nat × String × FType)) (n : String) :
    findByName l n = none ↔ ∀ e ∈ l, e.2.1 ≠ n := by
  induction l with
  | nil => simp [findByName]
  | cons e t ih =>
    by_cases he : e.2.1 = n
    · simp [findByName, he]
    · simp [findByName, he, ih]

theorem findByName_some (l : List (Nat × String × FType)) (n : String)
    (e : Nat × String × FType) (h : findByName l n = some e) : e ∈ l ∧ e.2.1 = n := by
  induction l with
  | nil => simp [findByName] at h
  | cons x t ih =>
    by_cases hx : x.2.1 = n
    · rw [findByName, if_pos hx] at h
      injection h with h2
      subst h2
      exact ⟨List.mem_cons_self _ _, hx⟩
    · rw [findByName, if_neg hx] at h
      obtain ⟨h1, h2⟩ := ih h
      exact ⟨List.mem_cons_of_mem _ h1, h2⟩

theorem findByName_append_none (l1 l2 : List (Nat × String × FType)) (n : String)
    (h : findByName l1 n = none) : findByName (l1 ++ l2) n = findByName l2 n := by
  induction l1 with
  | nil => simp
  | cons e t ih =>
    rw [findByName] at h
    by_cases he : e.2.1 = n
    · rw [if_pos he] at h
      exact (Option.some_ne_none e h).elim
    · rw [if_neg he] at h
      rw [List.cons_append, findByName, if_neg he]
      exact ih h

theorem findByName_filter_id (l : List (Nat × String × FType)) (n : String)
    (e : Nat × String × FType) (t : Nat) (h : findByName l n = some e) (ht : e.1 ≠ t) :
    findByName (l.filter (fun x => x.1 != t)) n = some e := by
  induction l with
  | nil => simp [findByName] at h
  | cons x xs ih =>
    by_cases hx : x.2.1 = n
    · rw [findByName, if_pos hx] at h
      injection h with h2
      subst h2
      rw [List.filter_cons, if_pos (by simpa using ht)]
      rw [findByName, if_pos hx]
    · rw [findByName, if_neg hx] at h
      rw [List.filter_cons]
      by_cases hxt : x.1 = t
      · simp only [hxt, bne_self_eq_false, Bool.false_eq_true, if_false]
        exact ih h
      · rw [if_pos (by simpa using hxt)]
        rw [findByName, if_neg hx]
        exact ih h

theorem findByName_unique (l : List (Nat × String × FType)) (n : String)
    (e : Nat × String × FType) :
    (l.map (fun x => x.2.1)).Nodup → findByName l n = some e →
      ∀ x ∈ l, x.2.1 = n → x = e := by
  induction l with
  | nil =>
    intro _ h
    simp [findByName] at h
  | cons y t ih =>
    intro hnd h x hx hxn
    simp only [List.map_cons, List.nodup_cons] at hnd
    by_cases hy : y.2.1 = n
    · rw [findByName, if_pos hy] at h
      injection h with h2
      subst h2
      rcases List.mem_cons.mp hx with h1 | h1
      · exact h1
      · exfalso
        apply hnd.1
        rw [hy, ← hxn]
        exact List.mem_map_of_mem (fun z => z.2.1) h1
    · rw [findByName, if_neg hy] at h
      rcases List.mem_cons.mp hx with h1 | h1
      · exact absurd (h1 ▸ hxn) hy
      · exact ih hnd.2 h x h1 hxn

theorem names_filter_nodup (l : List (Nat × String × FType))
    (p : Nat × String × FType → Bool) (h : (l.map (fun x => x.2.1)).Nodup) :
    ((l.filter p).map (fun x => x.2.1)).Nodup :=
  h.sublist ((l.filter_sublist).map _)

/-! ### Lemmas about the wrapping arithmetic -/

theorem u64add_small (a b : Nat) (h : a + b < U64MOD) : u64add a b = a + b :=
  Nat.mod_eq_of_lt h

theorem u64sub_small (a b : Nat) (hb : b ≤ a) (ha : a < U64MOD) : u64sub a b = a - b := by
  have hU : b % U64MOD = b := Nat.mod_eq_of_lt (lt_of_le_of_lt hb ha)
  rw [u64sub, hU]
  have h2 : a + U64MOD - b = (a - b) + U64MOD := by omega
  rw [h2, Nat.add_mod_right]
  exact Nat.mod_eq_of_lt (by omega)

theorem i64_newTotal (total old fin : Nat) (h1 : total < 2 ^ 63) (h2 : old ≤ total)
    (h3 : fin < 2 ^ 63) :
    i64toU64 (toI64 total + (toI64 fin - toI64 old)) = total - old + fin := by
  rw [toI64, if_pos h1, toI64, if_pos h3, toI64, if_pos (lt_of_le_of_lt h2 h1)]
  rw [i64toU64]
  omega

/-! ### Concrete base states used by witnesses and counterexamples.

`VFFS.new` takes the platform constant
`size_of::<Inode>() + size_of::<Directory>()` as its `rootSize` argument;
the concrete scenarios below instantiate it with 0. None of the
operations they perform read the root inode's `size` field, so the facts
below hold for every value of the constant (the general theorems quantify
over it). -/

/-- A freshly constructed filesystem. -/
def fs0 : VFFS := VFFS.new 0 "root" (0, 0)

/-- Limits `max_memory = max_file_size = 1 MB` (the spec's scenario 1). -/
def cfgT : Config := { maxMemory := 2 ^ 20, maxFileSize := 2 ^ 20 }

/-- `fs0` after creating the file `f` (inode 2) under the root. -/
def c1Base : VFFS := (fs0.create 1 "f" 0o644 0 0 0 (0, 0)).1

/-- Limits with a 4-byte file-size cap, to exercise the EFBIG path. -/
def c1Cfg : Config := { maxMemory := 2 ^ 20, maxFileSize := 4 }

/-- First write: 3 bytes, fits. -/
def c1W1 : VFFS × Option Errno := c1Base.write_file_data c1Cfg 2 [65, 66, 67] (1, 0)

/-- Second write: 3 more bytes, post-write size 6 > 4. -/
def c1W2 : VFFS × Option Errno := c1W1.1.write_file_data c1Cfg 2 [68, 69, 70] (2, 0)

/-- C1: a `write` that fails the capacity check is claimed to leave the
store unchanged; in the code `write_date` appends to the content buffer
before the `EFBIG` check, so the failed second write returns `EFBIG` with
the file content already extended to all six bytes — not equal to the
first write's three bytes. (The size field and total counter are left at
their old values, making content and size inconsistent.) This refutes the
claim at a concrete input; scaled to the spec's scenario 1 (600 KB + 600 KB
under a 1 MB cap) the same EFBIG branch runs and the content holds 1200 KB. -/
theorem c1_write_capacity_failure_mutates :
    c1W1.2 = none ∧ c1W2.2 = some Errno.EFBIG ∧
    fileContent c1W2.1 2 = some [65, 66, 67, 68, 69, 70] ∧
    fileContent c1W2.1 2 ≠ some [65, 66, 67] ∧
    fileContent c1W2.1 2 ≠ fileContent c1W1.1 2 :=
  ⟨rfl, rfl, rfl, by decide, by decide⟩

/-- C2: the claim `total_size = Σ inode.size` fails after a completed
`setattr` carrying a size (the handler sets `inode.size` without touching
the counter): starting from a fresh filesystem, `setattr(root, size := 1)`
succeeds and leaves `total_size = 0` while the sizes sum to 1. (The
discrepancy exists even at construction: `VFFS::new` stores the root with
`size_of::<Inode>() + size_of::<Directory>() > 0` but starts the counter
at 0; the theorem holds for every value of that platform constant.) -/
theorem c2_accounting_invariant_fails (cfg : Config) (rootSize : Nat) (mount : String)
    (t0 t1 : Timespec) :
    runOps cfg (VFFS.new rootSize mount t0) [(t1, Op.setattr 1 none none none (some 1) none)]
        = some ((VFFS.new rootSize mount t0).setattr 1 none none none (some 1) none t1).1 ∧
    ((VFFS.new rootSize mount t0).setattr 1 none none none (some 1) none t1).1.size = 0 ∧
    sumSizes ((VFFS.new rootSize mount t0).setattr 1 none none none (some 1) none t1).1.inodes
      = 1 :=
  ⟨rfl, rfl, rfl⟩

/-- The two successful operations refuting C3: create `/f`, then
`setattr(f, size := 2^20 + 1)` with `max_file_size = 2^20`. -/
def c3Ops : List (Timespec × Op) :=
  [((0, 0), Op.create 1 "f" 0o644 0 0 0),
   ((1, 0), Op.setattr 2 none none none (some (2 ^ 20 + 1)) none)]

/-- The state after running `c3Ops`. -/
def c3Bad : VFFS := (runOps cfgT fs0 c3Ops).getD fs0

/-- C3 counterexample: both operations succeed, yet the resulting File
inode's size field exceeds `max_file_size` — `setattr` applies a provided
size without any capacity check. -/
theorem c3_counterexample :
    runOps cfgT fs0 c3Ops = some c3Bad ∧
    (lookupInode c3Bad.inodes 2).map Inode.is_file = some true ∧
    (lookupInode c3Bad.inodes 2).map Inode.size = some (2 ^ 20 + 1) ∧
    ¬ FilesCapped cfgT c3Bad :=
  ⟨rfl, rfl, rfl, by decide⟩

/-- The state after two successful `create` calls with the same name. -/
def c4Bad : VFFS := ((fs0.create 1 "x" 0 0 0 0 (0, 0)).1.create 1 "x" 0 0 0 0 (1, 0)).1

/-- C4 counterexample: `create` never rejects a pre-existing name, so two
successful creates of `/x` leave the root with two children named `x`. -/
theorem c4_counterexample :
    runOps cfgT fs0 [((0, 0), Op.create 1 "x" 0 0 0 0), ((1, 0), Op.create 1 "x" 0 0 0 0)]
        = some c4Bad ∧
    childrenOf c4Bad 1 = some [(2, "x", FType.file), (3, "x", FType.file)] ∧
    ¬ NamesUnique c4Bad :=
  ⟨rfl, rfl, by decide⟩

/-- The attribute record of the inode created by `create(1, "x", 0o666, 0o022)`
on a fresh filesystem: inode id 2, permissions `0o666 & !0o022 = 0o644`. -/
def c5Attr : FileAttr :=
  { ino := 2, size := 0, blocks := 0, atime := (0, 0), mtime := (0, 0), ctime := (0, 0),
    crtime := (0, 0), kind := FType.file, perm := 0o644, nlink := 1, uid := 5, gid := 6,
    rdev := 0, blksize := 512, flags := 0 }

/-- C5 counterexample: `reply.created(&ttl, &attr, 0, 0, 0)` passes
generation 0, file handle 0 and flags 0 — the handle is 0, not the new
inode's id 2. -/
theorem c5_counterexample :
    (fs0.create 1 "x" 0o666 0o022 5 6 (0, 0)).2 = CReply.created c5Attr 0 0 0 ∧
    c5Attr.ino = 2 ∧ (0 : Nat) ≠ 2 :=
  ⟨rfl, rfl, by decide⟩

/-- The inode C5 describes: fresh id, size 0, mode = low 16 bits of
`mode & !umask`, one hardlink, owner from the request, empty file payload. -/
def c5NewInode (id : Nat) (name : String) (mode umask uid gid : Nat) (now : Timespec) : Inode :=
  { id := id, size := 0, updated_at := now, accessed_at := now, metadata_change_at := now,
    data := .file { name := name, data := [] }, mode := modeMask mode umask, hardlinks := 1,
    uid := uid, gid := gid, xattrs := [] }

/-- C5 (amended): for every create on an existing Directory parent with a
name of at most 255 bytes — even a name already present — the call
succeeds, allocates a fresh File inode (size 0, mode = low 16 bits of
`mode & !umask`, hardlinks 1, uid/gid from the request), inserts it into
the store, appends `(id, name, File)` to the parent's children, and
replies with the new attributes, generation 0, file handle 0 and flags 0:
the handle is the constant 0, not the inode id. -/
theorem c5_create_success (s : VFFS) (parent : Nat) (name : String)
    (mode umask uid gid : Nat) (now : Timespec) (p : Inode)
    (hname : name.utf8ByteSize ≤ MAX_NODE_NAME_LENGTH)
    (hp : lookupInode s.inodes parent = some p)
    (hdir : p.is_directory = true)
    (hfresh : lookupInode s.inodes s.nextId = none) :
    (s.create parent name mode umask uid gid now).2 =
      CReply.created (Inode.attr (c5NewInode s.nextId name mode umask uid gid now)) 0 0 0 ∧
    lookupInode (s.create parent name mode umask uid gid now).1.inodes s.nextId =
      some (c5NewInode s.nextId name mode umask uid gid now) ∧
    (s.create parent name mode umask uid gid now).1.nextId = s.nextId + 1 ∧
    ∀ d, p.data = InodeData.directory d →
      childrenOf (s.create parent name mode umask uid gid now).1 parent =
        some (d.nodes ++ [(s.nextId, name, FType.file)]) := by
  have hpn : parent ≠ s.nextId := by
    intro hh
    rw [hh, hfresh] at hp
    exact Option.noConfusion hp
  simp only [VFFS.create, if_neg (not_lt.mpr hname), hp, hdir, if_true,
    VFFS.append_inode, lookupInode_insert_ne _ _ _ _ hpn, c5NewInode]
  refine ⟨trivial, ?_, trivial, ?_⟩
  · rw [lookupInode_insert_ne _ _ _ _ (Ne.symm hpn), lookupInode_insert_self]
  · intro d hd
    unfold childrenOf
    rw [lookupInode_insert_self]
    simp [Inode.append_file_to_directory, hd, Directory.add_node]

/-- Witness scenario for C5: `create(1, "x")` on a fresh filesystem. -/
def c5Root : Inode := Inode.mkRoot 0 "root" (0, 0)

theorem c5_create_success_witness :
    ("x".utf8ByteSize ≤ MAX_NODE_NAME_LENGTH ∧
      lookupInode fs0.inodes 1 = some c5Root ∧
      c5Root.is_directory = true ∧
      lookupInode fs0.inodes fs0.nextId = none) ∧
    ((fs0.create 1 "x" 0o666 0o022 5 6 (0, 0)).2 =
        CReply.created (Inode.attr (c5NewInode fs0.nextId "x" 0o666 0o022 5 6 (0, 0))) 0 0 0 ∧
      lookupInode (fs0.create 1 "x" 0o666 0o022 5 6 (0, 0)).1.inodes fs0.nextId =
        some (c5NewInode fs0.nextId "x" 0o666 0o022 5 6 (0, 0)) ∧
      (fs0.create 1 "x" 0o666 0o022 5 6 (0, 0)).1.nextId = fs0.nextId + 1 ∧
      ∀ d, c5Root.data = InodeData.directory d →
        childrenOf (fs0.create 1 "x" 0o666 0o022 5 6 (0, 0)).1 1 =
          some (d.nodes ++ [(fs0.nextId, "x", FType.file)])) :=
  ⟨⟨by decide, rfl, rfl, rfl⟩,
    c5_create_success fs0 1 "x" 0o666 0o022 5 6 (0, 0) c5Root (by decide) rfl rfl rfl⟩

/-- C7 counterexample scenario: on the file inode 2, write the invalid
UTF-8 byte 0xFF, then the byte 0x41. -/
def c7W1 : VFFS × Option Errno := c1Base.write_file_data cfgT 2 [0xFF] (1, 0)

/-- The second write of the C7 counterexample. -/
def c7W2 : VFFS × Option Errno := c7W1.1.write_file_data cfgT 2 [0x41] (2, 0)

/-- C7 counterexample: both writes succeed, yet the read returns the
U+FFFD replacement bytes for 0xFF followed by 0x41 — the write path runs
`String::from_utf8_lossy`, so the content is not `data1 ++ data2`. -/
theorem c7_counterexample :
    c7W1.2 = none ∧ c7W2.2 = none ∧
    c7W2.1.read 2 0 100 = DataReply.bytes [0xEF, 0xBF, 0xBD, 0x41] ∧
    DataReply.bytes [0xEF, 0xBF, 0xBD, 0x41] ≠ DataReply.bytes ([0xFF] ++ [0x41]) :=
  ⟨rfl, rfl, rfl, by decide⟩

/-- C7 (amended): for a File inode whose content is empty, after two
successful writes of `data1` then `data2`, a read from offset 0 of any
`n` at least the content length returns
`utf8Lossy data1 ++ utf8Lossy data2` — the lossy UTF-8 conversion of each
chunk, equal to `data1 ++ data2` exactly when both are valid UTF-8. -/
theorem c7_write_append_read (cfg : Config) (s : VFFS) (ino : Nat) (d1 d2 : List Nat)
    (t1 t2 : Timespec) (n : Nat) (i : Inode) (f : File)
    (hi : lookupInode s.inodes ino = some i)
    (hf : i.data = InodeData.file f) (hempty : f.data = [])
    (hok1 : (s.write_file_data cfg ino d1 t1).2 = none)
    (hok2 : ((s.write_file_data cfg ino d1 t1).1.write_file_data cfg ino d2 t2).2 = none)
    (hn : (utf8Lossy d1).length + (utf8Lossy d2).length ≤ n) :
    ((s.write_file_data cfg ino d1 t1).1.write_file_data cfg ino d2 t2).1.read ino 0 n
      = DataReply.bytes (utf8Lossy d1 ++ utf8Lossy d2) := by
  by_cases h1 : cfg.maxFileSize < u64add i.size (d1.length % U64MOD)
  · exfalso
    simp only [VFFS.write_file_data, hi, hf, if_pos h1] at hok1
    exact Option.noConfusion hok1
  · by_cases h2 : cfg.maxMemory <
        i64toU64 (toI64 s.size + (toI64 (u64add i.size (d1.length % U64MOD)) - toI64 i.size))
    · exfalso
      simp only [VFFS.write_file_data, hi, hf, if_neg h1, if_pos h2] at hok1
      exact Option.noConfusion hok1
    · have hw1 : s.write_file_data cfg ino d1 t1 =
          ({ s with
              inodes := insertInode s.inodes ino
                (Inode.update_changes
                  { i with data := .file (f.write_date d1),
                           size := u64add i.size (d1.length % U64MOD) } t1),
              size := i64toU64 (toI64 s.size +
                (toI64 (u64add i.size (d1.length % U64MOD)) - toI64 i.size)) }, none) := by
        simp only [VFFS.write_file_data, hi, hf, if_neg h1, if_neg h2]
      rw [hw1] at hok2 ⊢
      set i2 : Inode := Inode.update_changes
        { i with data := .file (f.write_date d1),
                 size := u64add i.size (d1.length % U64MOD) } t1 with hi2
      have hlk : ∀ (m : List (Nat × Inode)), lookupInode (insertInode m ino i2) ino = some i2 :=
        fun m => lookupInode_insert_self m ino i2
      have hd2 : i2.data = InodeData.file (f.write_date d1) := rfl
      by_cases h3 : cfg.maxFileSize < u64add i2.size (d2.length % U64MOD)
      · exfalso
        simp only [VFFS.write_file_data, hlk, hd2, if_pos h3] at hok2
        exact Option.noConfusion hok2
      · by_cases h4 : cfg.maxMemory < i64toU64
            (toI64 (i64toU64 (toI64 s.size +
              (toI64 (u64add i.size (d1.length % U64MOD)) - toI64 i.size))) +
             (toI64 (u64add i2.size (d2.length % U64MOD)) - toI64 i2.size))
        · exfalso
          simp only [VFFS.write_file_data, hlk, hd2, if_neg h3, if_pos h4] at hok2
          exact Option.noConfusion hok2
        · simp only [VFFS.write_file_data, hlk, hd2, if_neg h3, if_neg h4]
          simp only [VFFS.read, lookupInode_insert_self]
          have hdat : (File.write_date (f.write_date d1) d2).data
              = utf8Lossy d1 ++ utf8Lossy d2 := by
            simp [File.write_date, hempty]
          simp only [Inode.update_changes, File.write_date, hempty, List.nil_append]
          by_cases h5 : (utf8Lossy d1 ++ utf8Lossy d2).length ≤ 0
          · rw [if_pos h5]
            have : utf8Lossy d1 ++ utf8Lossy d2 = [] := by
              have := List.length_eq_zero.mp (Nat.le_zero.mp h5)
              exact this
            rw [this]
          · rw [if_neg h5]
            congr 1
            rw [List.drop_zero, Nat.sub_zero]
            rw [min_eq_right (by simpa [List.length_append] using hn)]
            exact List.take_length _

/-- The payload of the file created for the C7 witness. -/
def c7F : File := { name := "f", data := [] }

theorem c7_write_append_read_witness :
    (lookupInode c1Base.inodes 2 = some (c5NewInode 2 "f" 0o644 0 0 0 (0, 0)) ∧
      (c5NewInode 2 "f" 0o644 0 0 0 (0, 0)).data = InodeData.file c7F ∧
      c7F.data = [] ∧
      (c1Base.write_file_data cfgT 2 [104, 105] (1, 0)).2 = none ∧
      ((c1Base.write_file_data cfgT 2 [104, 105] (1, 0)).1.write_file_data cfgT 2 [33]
        (2, 0)).2 = none ∧
      (utf8Lossy [104, 105]).length + (utf8Lossy [33]).length ≤ 100) ∧
    ((c1Base.write_file_data cfgT 2 [104, 105] (1, 0)).1.write_file_data cfgT 2 [33]
        (2, 0)).1.read 2 0 100 = DataReply.bytes ([104, 105] ++ [33]) :=
  ⟨⟨rfl, rfl, rfl, rfl, rfl, by decide⟩,
    (c7_write_append_read cfgT c1Base 2 [104, 105] [33] (1, 0) (2, 0) 100
      (c5NewInode 2 "f" 0o644 0 0 0 (0, 0)) c7F rfl rfl rfl rfl rfl (by decide)).trans
      (by decide)⟩

/-- C8: for an existing Directory parent and a name of at most 255 bytes,
mkdir returns EEXIST with the store unchanged exactly when the parent
already has a child of that name; consequently, after a successful mkdir
of `name`, a second mkdir of the same `name` under the same parent
returns EEXIST. -/
theorem c8_mkdir_eexist (s : VFFS) (parent : Nat) (name : String) (mode umask uid gid : Nat)
    (now : Timespec) (p : Inode) (d : Directory)
    (hname : name.utf8ByteSize ≤ MAX_NODE_NAME_LENGTH)
    (hp : lookupInode s.inodes parent = some p) (hpd : p.data = InodeData.directory d)
    (hfresh : lookupInode s.inodes s.nextId = none) :
    (s.mkdir parent name mode umask uid gid now = (s, EntryReply.error Errno.EEXIST)
      ↔ (d.find_node_by_name name).isSome = true) ∧
    ((d.find_node_by_name name).isSome = false → ∀ mode2 umask2 uid2 gid2 now2,
      ((s.mkdir parent name mode umask uid gid now).1.mkdir parent name mode2 umask2 uid2
          gid2 now2).2 = EntryReply.error Errno.EEXIST) := by
  have hpn : parent ≠ s.nextId := by
    intro hh
    rw [hh, hfresh] at hp
    exact Option.noConfusion hp
  constructor
  · constructor
    · intro h
      by_contra hne
      have hnone : d.find_node_by_name name = none := by
        cases hfind : d.find_node_by_name name with
        | none => rfl
        | some e => rw [hfind] at hne; exact absurd rfl hne
      simp only [VFFS.mkdir, if_neg (not_lt.mpr hname), hp, hpd, hnone, Option.isSome_none,
        Bool.false_eq_true, if_false, VFFS.append_inode] at h
      rw [lookupInode_insert_ne _ _ _ _ hpn, lookupInode_insert_self] at h
      have := congrArg Prod.snd h
      exact EntryReply.noConfusion this
    · intro h
      simp only [VFFS.mkdir, if_neg (not_lt.mpr hname), hp, hpd, h, if_true]
  · intro h mode2 umask2 uid2 gid2 now2
    have hnone : d.find_node_by_name name = none := by
      cases hfind : d.find_node_by_name name with
      | none => rfl
      | some e => rw [hfind] at h; exact Bool.noConfusion h
    have hnone2 : findByName d.nodes name = none := hnone
    simp only [VFFS.mkdir, if_neg (not_lt.mpr hname), hp, hpd, hnone, Option.isSome_none,
      Bool.false_eq_true, if_false, VFFS.append_inode]
    rw [lookupInode_insert_ne _ _ _ _ hpn, lookupInode_insert_self]
    simp only [Inode.update_changes, Inode.append_file_to_directory, Directory.add_node]
    rw [lookupInode_insert_self]
    have hfind2 : Directory.find_node_by_name
        { name := d.name, nodes := d.nodes ++ [(s.nextId, name, FType.directory)] } name
        = some (s.nextId, name, FType.directory) := by
      unfold Directory.find_node_by_name
      rw [findByName_append_none _ _ _ hnone2]
      simp [findByName]
    simp only [hpd]
    rw [hfind2]
    rfl

/-- The root directory payload of `fs0`. -/
def c8RootDir : Directory := { name := "root", nodes := [] }

theorem c8_mkdir_eexist_witness :
    ("a".utf8ByteSize ≤ MAX_NODE_NAME_LENGTH ∧
      lookupInode fs0.inodes 1 = some c5Root ∧
      c5Root.data = InodeData.directory c8RootDir ∧
      lookupInode fs0.inodes fs0.nextId = none) ∧
    ((fs0.mkdir 1 "a" 0o777 0 0 0 (0, 0) = (fs0, EntryReply.error Errno.EEXIST)
        ↔ (c8RootDir.find_node_by_name "a").isSome = true) ∧
      ((c8RootDir.find_node_by_name "a").isSome = false → ∀ mode2 umask2 uid2 gid2 now2,
        ((fs0.mkdir 1 "a" 0o777 0 0 0 (0, 0)).1.mkdir 1 "a" mode2 umask2 uid2 gid2
            now2).2 = EntryReply.error Errno.EEXIST)) :=
  ⟨⟨by decide, rfl, rfl, rfl⟩,
    c8_mkdir_eexist fs0 1 "a" 0o777 0 0 0 (0, 0) c5Root c8RootDir (by decide) rfl rfl rfl⟩

/-- The entries the C9 claim says readdir offers, with the positional
counter started at `k`: children enumerated by position, positions below
`offset` skipped, each offered as `(child_id, position + 1, kind, name)`. -/
def readdirExpectedFrom (nodes : List (Nat × String × FType)) (k : Nat) (offset : Int) :
    List DirEntry :=
  ((nodes.enumFrom k).filter (fun p => decide (offset ≤ (p.1 : Int)))).map
    (fun p => { id := p.2.1, cursor := (p.1 : Int) + 1, kind := p.2.2.2, name := p.2.2.1 })

/-- The entries the C9 claim says readdir offers. -/
def readdirExpected (nodes : List (Nat × String × FType)) (offset : Int) : List DirEntry :=
  readdirExpectedFrom nodes 0 offset

/-- Offer entries to the buffer in order, stopping (after the offending
entry) as soon as the buffer reports full. -/
def takeUntilFull {β : Type} (add : β → DirEntry → Bool × β) : β → List DirEntry → List DirEntry
  | _, [] => []
  | buf, e :: t =>
    let r := add buf e
    if r.1 then [e] else e :: takeUntilFull add r.2 t

theorem readdirLoop_eq {β : Type} (add : β → DirEntry → Bool × β)
    (nodes : List (Nat × String × FType)) (k : Nat) (offset : Int) (buf : β) :
    (readdirLoop add nodes (k : Int) offset buf).1
      = takeUntilFull add buf (readdirExpectedFrom nodes k offset) := by
  induction nodes generalizing k buf with
  | nil => simp [readdirLoop, readdirExpectedFrom, takeUntilFull, List.enumFrom]
  | cons e rest ih =>
    have hcast : ((k : Int) + 1) = ((k + 1 : Nat) : Int) := by push_cast; ring
    by_cases hk : offset ≤ (k : Int)
    · rw [readdirLoop]
      rw [if_pos hk]
      set de : DirEntry :=
        { id := e.1, cursor := (k : Int) + 1, kind := e.2.2, name := e.2.1 } with hde
      have hexp : readdirExpectedFrom (e :: rest) k offset
          = de :: readdirExpectedFrom rest (k + 1) offset := by
        simp [readdirExpectedFrom, List.enumFrom, hk, hde]
      rw [hexp]
      simp only [takeUntilFull]
      by_cases hfull : (add buf de).1
      · simp only [hfull, if_true]
      · simp only [hfull, Bool.false_eq_true, if_false]
        rw [hcast, ih]
    · rw [readdirLoop, if_neg hk]
      have hexp : readdirExpectedFrom (e :: rest) k offset
          = readdirExpectedFrom rest (k + 1) offset := by
        simp [readdirExpectedFrom, List.enumFrom, hk]
      rw [hexp, hcast, ih]

theorem readdirExpectedFrom_cursor (nodes : List (Nat × String × FType)) (k : Nat)
    (offset : Int) (j : Nat) (c : DirEntry)
    (h : (readdirExpectedFrom nodes k offset).get? j = some c) :
    c.cursor = max offset (k : Int) + j + 1 := by
  induction nodes generalizing k j with
  | nil => simp [readdirExpectedFrom, List.enumFrom] at h
  | cons e rest ih =>
    by_cases hk : offset ≤ (k : Int)
    · have hexp : readdirExpectedFrom (e :: rest) k offset
          = { id := e.1, cursor := (k : Int) + 1, kind := e.2.2, name := e.2.1 }
              :: readdirExpectedFrom rest (k + 1) offset := by
        simp [readdirExpectedFrom, List.enumFrom, hk]
      rw [hexp] at h
      cases j with
      | zero =>
        rw [List.get?_cons_zero] at h
        injection h with h2
        subst h2
        simp [max_eq_right hk]
      | succ j2 =>
        rw [List.get?_cons_succ] at h
        have := ih (k + 1) j2 h
        have h1 : max offset (((k + 1 : Nat)) : Int) = (k : Int) + 1 := by
          push_cast
          exact max_eq_right (by omega)
        have h2 : max offset (k : Int) = (k : Int) := max_eq_right hk
        rw [h1] at this
        rw [h2]
        omega
    · have hexp : readdirExpectedFrom (e :: rest) k offset
          = readdirExpectedFrom rest (k + 1) offset := by
        simp [readdirExpectedFrom, List.enumFrom, hk]
      rw [hexp] at h
      have := ih (k + 1) j h
      have h1 : max offset (((k + 1 : Nat)) : Int) = offset := by
        push_cast
        exact max_eq_left (by omega)
      have h2 : max offset (k : Int) = offset := max_eq_left (by omega)
      rw [h1] at this
      rw [h2]
      omega

theorem takeUntilFull_prefix_get {β : Type} (add : β → DirEntry → Bool × β) (buf : β)
    (l : List DirEntry) (j : Nat) (c : DirEntry)
    (h : (takeUntilFull add buf l).get? j = some c) : l.get? j = some c := by
  induction l generalizing buf j with
  | nil => simp [takeUntilFull] at h
  | cons e t ih =>
    simp only [takeUntilFull] at h
    by_cases hfull : (add buf e).1
    · simp only [hfull, if_true] at h
      cases j with
      | zero =>
        rw [List.get?_cons_zero] at h ⊢
        exact h
      | succ j2 => simp at h
    · simp only [hfull, Bool.false_eq_true, if_false] at h
      cases j with
      | zero =>
        rw [List.get?_cons_zero] at h ⊢
        exact h
      | succ j2 =>
        rw [List.get?_cons_succ] at h ⊢
        exact ih (add buf e).2 j2 h

/-- C9: readdir on an existing Directory inode offers to the reply buffer
exactly the children in list order with positions below `offset` skipped,
each as `(child_id, position + 1, kind, name)`, truncated at the first
buffer-full response; the emitted cursors are `max offset 0 + j + 1` for
the j-th offered entry — 1-based and increasing by exactly one. -/
theorem c9_readdir {β : Type} (add : β → DirEntry → Bool × β) (s : VFFS) (ino : Nat)
    (offset : Int) (buf : β) (i : Inode) (d : Directory)
    (hi : lookupInode s.inodes ino = some i) (hd : i.data = InodeData.directory d) :
    (s.readdir add ino offset buf).1
        = ReaddirReply.ok (takeUntilFull add buf (readdirExpected d.nodes offset)) ∧
    ∀ j (hj : j < (takeUntilFull add buf (readdirExpected d.nodes offset)).length),
      ((takeUntilFull add buf (readdirExpected d.nodes offset)).get ⟨j, hj⟩).cursor
        = max offset 0 + j + 1 := by
  constructor
  · simp only [VFFS.readdir, hi, hd]
    rw [show (0 : Int) = ((0 : Nat) : Int) from rfl, readdirLoop_eq]
    rfl
  · intro j hj
    have hq : (takeUntilFull add buf (readdirExpected d.nodes offset)).get? j
        = some ((takeUntilFull add buf (readdirExpected d.nodes offset)).get ⟨j, hj⟩) :=
      List.get?_eq_get hj
    have hq2 := takeUntilFull_prefix_get add buf _ j _ hq
    have := readdirExpectedFrom_cursor d.nodes 0 offset j _ hq2
    simpa using this

/-- Witness state for C9: two files `a`, `b` created under the root. -/
def c9S : VFFS := ((fs0.create 1 "a" 0 0 0 0 (0, 0)).1.create 1 "b" 0 0 0 0 (1, 0)).1

/-- The root directory payload of `c9S`. -/
def c9Dir : Directory := { name := "root", nodes := [(2, "a", FType.file), (3, "b", FType.file)] }

/-- The root inode of `c9S`. -/
def c9Root : Inode :=
  { id := 1, size := 0, updated_at := (0, 0), accessed_at := (0, 0),
    metadata_change_at := (0, 0), data := .directory c9Dir, mode := 0o777, hardlinks := 0,
    uid := 0, gid := 0, xattrs := [] }

/-- A reply buffer for the C9 witness: reports full when its counter hits 0. -/
def c9Add (b : Nat) (_e : DirEntry) : Bool × Nat := (decide (b = 0), b - 1)

theorem c9_readdir_witness :
    (lookupInode c9S.inodes 1 = some c9Root ∧ c9Root.data = InodeData.directory c9Dir) ∧
    ((c9S.readdir c9Add 1 0 5).1
        = ReaddirReply.ok (takeUntilFull c9Add 5 (readdirExpected c9Dir.nodes 0)) ∧
      ∀ j (hj : j < (takeUntilFull c9Add 5 (readdirExpected c9Dir.nodes 0)).length),
        ((takeUntilFull c9Add 5 (readdirExpected c9Dir.nodes 0)).get ⟨j, hj⟩).cursor
          = max 0 0 + j + 1) ∧
    takeUntilFull c9Add 5 (readdirExpected c9Dir.nodes 0)
      = [{ id := 2, cursor := 1, kind := FType.file, name := "a" },
         { id := 3, cursor := 2, kind := FType.file, name := "b" }] :=
  ⟨⟨rfl, rfl⟩, c9_readdir c9Add c9S 1 0 5 c9Root c9Dir rfl rfl, by decide⟩

/-- The parent inode as unlink leaves it: children entries bearing `name`
filtered out, modification and metadata-change times touched. -/
def unlinkParent (p : Inode) (d : Directory) (name : String) (now : Timespec) : Inode :=
  { p with updated_at := now, metadata_change_at := now, data := InodeData.directory { d with nodes := d.nodes.filter (fun x => x.2.1 != name) } }

/-- C10: when a parent directory's children hold two or more entries
sharing `name` (reachable because create never rejects duplicates), with
pairwise-distinct inode ids among the matches, each non-first match's id
referenced nowhere but in those matching entries, unlink removes every
entry bearing the name from the parent's children, removes only the inode
of the first matching entry from the store, and leaves the other matches'
inodes in the store with no directory entry referencing them. -/
theorem c10_unlink_duplicates (s : VFFS) (parent : Nat) (name : String) (now : Timespec)
    (p : Inode) (d : Directory) (e0 : Nat × String × FType)
    (hnd : keysNodup s.inodes)
    (hp : lookupInode s.inodes parent = some p)
    (hpd : p.data = InodeData.directory d)
    (hfirst : d.find_node_by_name name = some e0)
    (_hdup : 2 ≤ (d.nodes.filter (fun x => x.2.1 == name)).length)
    (hne : e0.1 ≠ parent)
    (hrefs : ∀ y ∈ d.nodes, y.2.1 = name → y.1 ≠ e0.1 →
      ∀ q ∈ s.inodes, ∀ x ∈ nodesOf q.2, x.1 = y.1 → q.1 = parent ∧ x.2.1 = name)
    (hin : ∀ y ∈ d.nodes, y.2.1 = name → (lookupInode s.inodes y.1).isSome = true) :
    (s.unlink parent name now).2 = EmptyReply.ok ∧
    childrenOf (s.unlink parent name now).1 parent
      = some (d.nodes.filter (fun x => x.2.1 != name)) ∧
    lookupInode (s.unlink parent name now).1.inodes e0.1 = none ∧
    (∀ id, id ≠ e0.1 → (lookupInode (s.unlink parent name now).1.inodes id).isSome
        = (lookupInode s.inodes id).isSome) ∧
    (∀ y ∈ d.nodes, y.2.1 = name → y.1 ≠ e0.1 →
      (lookupInode (s.unlink parent name now).1.inodes y.1).isSome = true) ∧
    (∀ y ∈ d.nodes, y.2.1 = name → y.1 ≠ e0.1 →
      ∀ q ∈ (s.unlink parent name now).1.inodes, ∀ x ∈ nodesOf q.2, x.1 ≠ y.1) := by
  obtain ⟨he0mem, he0name⟩ := findByName_some d.nodes name e0 hfirst
  have hsome : (lookupInode s.inodes e0.1).isSome = true := hin e0 he0mem he0name
  obtain ⟨v, hv⟩ := Option.isSome_iff_exists.mp hsome
  have hlk1 : lookupInode (insertInode s.inodes parent (unlinkParent p d name now)) e0.1
      = some v := by
    rw [lookupInode_insert_ne _ _ _ _ hne]
    exact hv
  have hlk2 := hlk1
  simp only [unlinkParent] at hlk2
  have hun : s.unlink parent name now
      = ({ s with
            inodes := eraseInode (insertInode s.inodes parent (unlinkParent p d name now)) e0.1,
            size := u64sub s.size v.size }, EmptyReply.ok) := by
    simp only [VFFS.unlink, hp, hpd, hfirst, Inode.update_changes, VFFS.remove_inode,
      unlinkParent, hlk2]
  rw [hun]
  have hndI : keysNodup (insertInode s.inodes parent (unlinkParent p d name now)) :=
    keysNodup_insertInode _ _ _ hnd
  refine ⟨rfl, ?_, ?_, ?_, ?_, ?_⟩
  · unfold childrenOf
    rw [lookupInode_erase_ne _ _ _ (fun hh => hne hh.symm), lookupInode_insert_self]
    simp [unlinkParent]
  · exact lookupInode_erase_self _ _ hndI
  · intro id hid
    rw [lookupInode_erase_ne _ _ _ hid]
    exact lookupInode_isSome_insert s.inodes parent _ (by rw [hp]; rfl) id
  · intro y hy hyname hyne
    rw [lookupInode_erase_ne _ _ _ hyne]
    rw [lookupInode_isSome_insert s.inodes parent _ (by rw [hp]; rfl) y.1]
    exact hin y hy hyname
  · intro y hy hyname hyne q hq x hx hxy
    have hq2 := mem_insertInode_nodup _ _ _ _ hnd (mem_eraseInode _ _ _ hq)
    rcases hq2 with hq2 | hq2
    · subst hq2
      simp only [nodesOf, unlinkParent] at hx
      have hx3 := List.mem_filter.mp hx
      have hx4 : x.2.1 ≠ name := by simpa using hx3.2
      refine hx4 ((hrefs y hy hyname hyne (parent, p) (lookupInode_mem _ _ _ hp)
        x ?_ hxy).2)
      simp only [nodesOf, hpd]
      exact hx3.1
    · exact hq2.2 ((hrefs y hy hyname hyne q hq2.1 x hx hxy).1)

/-- The root directory payload of `c4Bad`: two children named `x`. -/
def c10Dir : Directory := { name := "root", nodes := [(2, "x", FType.file), (3, "x", FType.file)] }

/-- The root inode of `c4Bad`. -/
def c10Root : Inode :=
  { id := 1, size := 0, updated_at := (0, 0), accessed_at := (0, 0),
    metadata_change_at := (0, 0), data := .directory c10Dir, mode := 0o777, hardlinks := 0,
    uid := 0, gid := 0, xattrs := [] }

theorem c10_unlink_duplicates_witness :
    (keysNodup c4Bad.inodes ∧
      lookupInode c4Bad.inodes 1 = some c10Root ∧
      c10Root.data = InodeData.directory c10Dir ∧
      c10Dir.find_node_by_name "x" = some (2, "x", FType.file) ∧
      2 ≤ (c10Dir.nodes.filter (fun x => x.2.1 == "x")).length ∧
      (2, "x", FType.file).1 ≠ 1 ∧
      (∀ y ∈ c10Dir.nodes, y.2.1 = "x" → y.1 ≠ (2, "x", FType.file).1 →
        ∀ q ∈ c4Bad.inodes, ∀ x ∈ nodesOf q.2, x.1 = y.1 → q.1 = 1 ∧ x.2.1 = "x") ∧
      (∀ y ∈ c10Dir.nodes, y.2.1 = "x" → (lookupInode c4Bad.inodes y.1).isSome = true)) ∧
    ((c4Bad.unlink 1 "x" (2, 0)).2 = EmptyReply.ok ∧
      childrenOf (c4Bad.unlink 1 "x" (2, 0)).1 1
        = some (c10Dir.nodes.filter (fun x => x.2.1 != "x")) ∧
      lookupInode (c4Bad.unlink 1 "x" (2, 0)).1.inodes (2, "x", FType.file).1 = none ∧
      (∀ id, id ≠ (2, "x", FType.file).1 →
        (lookupInode (c4Bad.unlink 1 "x" (2, 0)).1.inodes id).isSome
          = (lookupInode c4Bad.inodes id).isSome) ∧
      (∀ y ∈ c10Dir.nodes, y.2.1 = "x" → y.1 ≠ (2, "x", FType.file).1 →
        (lookupInode (c4Bad.unlink 1 "x" (2, 0)).1.inodes y.1).isSome = true) ∧
      (∀ y ∈ c10Dir.nodes, y.2.1 = "x" → y.1 ≠ (2, "x", FType.file).1 →
        ∀ q ∈ (c4Bad.unlink 1 "x" (2, 0)).1.inodes, ∀ x ∈ nodesOf q.2, x.1 ≠ y.1)) :=
  ⟨⟨by decide, rfl, rfl, rfl, by decide, by decide, by decide, by decide⟩,
    c10_unlink_duplicates c4Bad 1 "x" (2, 0) c10Root c10Dir (2, "x", FType.file)
      (by decide) rfl rfl rfl (by decide) (by decide) (by decide) (by decide)⟩

/-! ### Preservation of name uniqueness (C4) -/

/-- Name uniqueness together with key uniqueness of the store. -/
def StoreOk (s : VFFS) : Prop := NamesUnique s ∧ keysNodup s.inodes

theorem dirNames_eq_map (i : Inode) : dirNames i = (nodesOf i).map (fun e => e.2.1) := by
  unfold dirNames nodesOf
  cases i.data <;> rfl

theorem lookupInode_insert_cases (m : List (Nat × Inode)) (k : Nat) (v : Inode) (k' : Nat)
    (w : Inode) (h : lookupInode (insertInode m k v) k' = some w) :
    w = v ∨ (lookupInode m k' = some w ∧ k' ≠ k) := by
  by_cases hk : k' = k
  · subst hk
    rw [lookupInode_insert_self] at h
    injection h with h2
    exact Or.inl h2.symm
  · rw [lookupInode_insert_ne _ _ _ _ hk] at h
    exact Or.inr ⟨h, hk⟩

theorem namesUnique_mem (s : VFFS) (hNU : NamesUnique s) (k : Nat) (v : Inode)
    (h : lookupInode s.inodes k = some v) : (dirNames v).Nodup :=
  hNU (k, v) (lookupInode_mem _ _ _ h)

/-- Strengthened case split for a lookup in an updated store. -/
theorem lookupInode_insert_cases2 (m : List (Nat × Inode)) (k : Nat) (v : Inode) (k' : Nat)
    (w : Inode) (h : lookupInode (insertInode m k v) k' = some w) :
    (k' = k ∧ w = v) ∨ (k' ≠ k ∧ lookupInode m k' = some w) := by
  by_cases hk : k' = k
  · subst hk
    rw [lookupInode_insert_self] at h
    injection h with h2
    exact Or.inl ⟨rfl, h2.symm⟩
  · rw [lookupInode_insert_ne _ _ _ _ hk] at h
    exact Or.inr ⟨hk, h⟩

theorem dirNames_rename_payload (srcI : Inode) (newName : String) :
    dirNames { srcI with metadata_change_at := (srcI.metadata_change_at.1, srcI.metadata_change_at.2), data := match srcI.data with | InodeData.file f => InodeData.file { f with name := newName } | InodeData.directory d2 => InodeData.directory { d2 with name := newName } } = dirNames srcI := by
  rcases hS : srcI.data with f | d2 <;> simp [dirNames, hS]

/-- The phases of `rename_commit` after the target removal (the `tgt = none`
instance runs exactly those phases on `s`) preserve `StoreOk`, provided no
entry of the new parent bears `newName`. -/
theorem rename_commit_none_storeOk (s : VFFS) (parent : Nat) (name : String)
    (newParent : Nat) (newName : String) (srcId : Nat) (now : Timespec)
    (hNU : NamesUnique s) (hnd : keysNodup s.inodes)
    (hkey : ∀ np, lookupInode s.inodes newParent = some np →
      ∀ x ∈ nodesOf np, x.2.1 ≠ newName) :
    StoreOk (s.rename_commit parent name newParent newName srcId none now).1 := by
  simp only [VFFS.rename_commit]
  rcases hB : lookupInode s.inodes parent with _ | pI
  · exact ⟨hNU, hnd⟩
  simp only
  have hpInames : (dirNames pI).Nodup := namesUnique_mem s hNU parent pI hB
  rcases hD : pI.data with f | pd
  · simp only [Inode.update_changes, hD]
    refine ⟨forall_mem_insertInode _ _ _ hNU ?_, keysNodup_insertInode _ _ _ hnd⟩
    simpa [dirNames, hD] using hpInames
  simp only [Inode.update_changes, hD]
  rcases hF : findByName pd.nodes name with _ | src
  · simp only [Directory.find_node_by_name, hF]
    refine ⟨forall_mem_insertInode _ _ _ hNU ?_, keysNodup_insertInode _ _ _ hnd⟩
    simpa [dirNames, hD] using hpInames
  simp only [Directory.find_node_by_name, hF]
  have hpdnames : (pd.nodes.map (fun e => e.2.1)).Nodup := by
    simpa [dirNames, hD] using hpInames
  set pI2 : Inode := { pI with updated_at := now, metadata_change_at := now, data := InodeData.directory { pd with nodes := pd.nodes.filter (fun x => x.1 != srcId) } } with hpI2def
  have hpI2names : (dirNames pI2).Nodup := by
    simpa [dirNames, hpI2def] using names_filter_nodup pd.nodes (fun x => x.1 != srcId) hpdnames
  have hNUB : NamesUnique { s with inodes := insertInode s.inodes parent pI2 } :=
    forall_mem_insertInode _ _ _ hNU hpI2names
  have hndB : keysNodup (insertInode s.inodes parent pI2) :=
    keysNodup_insertInode _ _ _ hnd
  rcases hC : lookupInode (insertInode s.inodes parent pI2) newParent with _ | npI
  · exact ⟨hNUB, hndB⟩
  simp only
  have hnpInames : (dirNames npI).Nodup := hNUB (newParent, npI) (lookupInode_mem _ _ _ hC)
  have hkeyB : ∀ x ∈ nodesOf npI, x.2.1 ≠ newName := by
    rcases lookupInode_insert_cases2 _ _ _ _ _ hC with ⟨hk1, hk2⟩ | ⟨hk1, hk2⟩
    · subst hk1
      subst hk2
      intro x hx
      have hx2 : x ∈ pd.nodes ∧ ¬x.1 = srcId := by simpa [nodesOf, hpI2def] using hx
      exact hkey pI hB x (by simpa [nodesOf, hD] using hx2.1)
    · exact hkey npI hk2
  rcases hE : npI.data with fnp | dnp
  · -- new parent is a file: timestamps only, no entry appended
    simp only [Inode.update_changes, hE]
    have hnames : (dirNames { npI with updated_at := now, metadata_change_at := now, data := InodeData.file fnp }).Nodup := by
      simp [dirNames]
    have hNUC : NamesUnique { s with inodes := insertInode (insertInode s.inodes parent pI2) newParent { npI with updated_at := now, metadata_change_at := now, data := InodeData.file fnp } } :=
      forall_mem_insertInode _ _ _ hNUB hnames
    have hndC : keysNodup (insertInode (insertInode s.inodes parent pI2) newParent { npI with updated_at := now, metadata_change_at := now, data := InodeData.file fnp }) :=
      keysNodup_insertInode _ _ _ hndB
    rcases hG : lookupInode (insertInode (insertInode s.inodes parent pI2) newParent { npI with updated_at := now, metadata_change_at := now, data := InodeData.file fnp }) srcId with _ | srcI
    · exact ⟨hNUC, hndC⟩
    simp only
    refine ⟨forall_mem_insertInode _ _ _ hNUC ?_, keysNodup_insertInode _ _ _ hndC⟩
    have hsrcnames : (dirNames srcI).Nodup := hNUC (srcId, srcI) (lookupInode_mem _ _ _ hG)
    rcases hS : srcI.data with f2 | d2 <;> simpa [dirNames, hS] using hsrcnames
  · simp only [Inode.update_changes, hE, Directory.add_node]
    have hdnpnames : (dnp.nodes.map (fun e => e.2.1)).Nodup := by
      simpa [dirNames, hE] using hnpInames
    have hnotmem : newName ∉ dnp.nodes.map (fun e => e.2.1) := by
      intro hmem
      rcases List.mem_map.mp hmem with ⟨x, hx, hx2⟩
      exact hkeyB x (by simpa [nodesOf, hE] using hx) hx2
    have happ : ((dnp.nodes ++ [(srcId, newName, src.2.2)]).map (fun e => e.2.1)).Nodup := by
      rw [List.map_append]
      rw [List.nodup_append]
      refine ⟨hdnpnames, List.nodup_singleton _, ?_⟩
      intro a ha hb
      simp only [List.map_cons, List.map_nil, List.mem_cons, List.not_mem_nil, or_false] at hb
      subst hb
      exact hnotmem ha
    set npI2 : Inode := { npI with updated_at := now, metadata_change_at := now, data := InodeData.directory { dnp with nodes := dnp.nodes ++ [(srcId, newName, src.2.2)] } } with hnpI2def
    have hnpI2names : (dirNames npI2).Nodup := by
      simpa [dirNames, hnpI2def] using happ
    have hNUC : NamesUnique { s with inodes := insertInode (insertInode s.inodes parent pI2) newParent npI2 } :=
      forall_mem_insertInode _ _ _ hNUB hnpI2names
    have hndC : keysNodup (insertInode (insertInode s.inodes parent pI2) newParent npI2) :=
      keysNodup_insertInode _ _ _ hndB
    rcases hG : lookupInode (insertInode (insertInode s.inodes parent pI2) newParent npI2) srcId with _ | srcI
    · exact ⟨hNUC, hndC⟩
    simp only
    refine ⟨forall_mem_insertInode _ _ _ hNUC ?_, keysNodup_insertInode _ _ _ hndC⟩
    have hsrcnames : (dirNames srcI).Nodup := hNUC (srcId, srcI) (lookupInode_mem _ _ _ hG)
    rcases hS : srcI.data with f2 | d2 <;> simpa [dirNames, hS] using hsrcnames

/-- `rename_commit` with a target to replace preserves `StoreOk`, provided
every entry of the new parent bearing `newName` carries the target's id. -/
theorem rename_commit_some_storeOk (s : VFFS) (parent : Nat) (name : String)
    (newParent : Nat) (newName : String) (srcId tgtId : Nat) (now : Timespec)
    (hNU : NamesUnique s) (hnd : keysNodup s.inodes)
    (hkey : ∀ np, lookupInode s.inodes newParent = some np →
      ∀ x ∈ nodesOf np, x.2.1 = newName → x.1 = tgtId) :
    StoreOk (s.rename_commit parent name newParent newName srcId (some tgtId) now).1 := by
  rcases h1 : lookupInode s.inodes tgtId with _ | tv
  · -- the target id is not in the store: remove_inode is a no-op
    rcases h2 : lookupInode s.inodes newParent with _ | np
    · have heq : s.rename_commit parent name newParent newName srcId (some tgtId) now
          = s.rename_commit parent name newParent newName srcId none now := by
        simp only [VFFS.rename_commit, VFFS.remove_inode, h1, h2]
      rw [heq]
      exact rename_commit_none_storeOk s parent name newParent newName srcId now hNU hnd
        (fun np hnp => by rw [h2] at hnp; exact Option.noConfusion hnp)
    · rcases h3 : np.data with fnp | dnp
      · have heq : s.rename_commit parent name newParent newName srcId (some tgtId) now
            = s.rename_commit parent name newParent newName srcId none now := by
          simp only [VFFS.rename_commit, VFFS.remove_inode, h1, h2, h3]
        rw [heq]
        refine rename_commit_none_storeOk s parent name newParent newName srcId now hNU hnd
          (fun np2 hnp2 x hx => ?_)
        rw [h2] at hnp2
        injection hnp2 with hnp3
        subst hnp3
        simp [nodesOf, h3] at hx
      · set np1 : Inode := { np with data := InodeData.directory { dnp with nodes := dnp.nodes.filter (fun x => x.1 != tgtId) } } with hnp1def
        have heq : s.rename_commit parent name newParent newName srcId (some tgtId) now
            = ({ s with inodes := insertInode s.inodes newParent np1
                 }.rename_commit parent name newParent newName srcId none now) := by
          simp only [VFFS.rename_commit, VFFS.remove_inode, h1, h2, h3, hnp1def]
        rw [heq]
        have hnpnames : (dirNames np).Nodup := namesUnique_mem s hNU newParent np h2
        have hfilternames : ((dnp.nodes.filter (fun x => x.1 != tgtId)).map
            (fun e => e.2.1)).Nodup :=
          names_filter_nodup _ _ (by simpa [dirNames, h3] using hnpnames)
        have hnp1names : (dirNames np1).Nodup := by
          simpa [dirNames, hnp1def] using hfilternames
        refine rename_commit_none_storeOk _ parent name newParent newName srcId now
          (forall_mem_insertInode _ _ _ hNU hnp1names)
          (keysNodup_insertInode _ _ _ hnd) (fun np2 hnp2 x hx hxn => ?_)
        rcases lookupInode_insert_cases2 _ _ _ _ _ hnp2 with ⟨hk1, hk2⟩ | ⟨hk1, hk2⟩
        · subst hk2
          have hx2 : x ∈ dnp.nodes ∧ ¬x.1 = tgtId := by
            simpa [nodesOf, hnp1def] using hx
          exact hx2.2 (hkey np h2 x (by simpa [nodesOf, h3] using hx2.1) hxn)
        · exact absurd rfl hk1
  · -- the target inode is erased
    by_cases hnp : newParent = tgtId
    · subst hnp
      have h2 : lookupInode (eraseInode s.inodes newParent) newParent = none :=
        lookupInode_erase_self _ _ hnd
      have heq : s.rename_commit parent name newParent newName srcId (some newParent) now
          = ({ s with inodes := eraseInode s.inodes newParent, size := u64sub s.size tv.size
             }.rename_commit parent name newParent newName srcId none now) := by
        simp only [VFFS.rename_commit, VFFS.remove_inode, h1, h2]
      rw [heq]
      exact rename_commit_none_storeOk _ parent name newParent newName srcId now
        (forall_mem_eraseInode _ _ hNU) (keysNodup_eraseInode _ _ hnd)
        (fun np2 hnp2 => by rw [h2] at hnp2; exact Option.noConfusion hnp2)
    · have h2 : lookupInode (eraseInode s.inodes tgtId) newParent
          = lookupInode s.inodes newParent := lookupInode_erase_ne _ _ _ hnp
      have hNUe : NamesUnique { s with inodes := eraseInode s.inodes tgtId, size := u64sub s.size tv.size } :=
        forall_mem_eraseInode _ _ hNU
      have hnde : keysNodup (eraseInode s.inodes tgtId) := keysNodup_eraseInode _ _ hnd
      rcases h3 : lookupInode s.inodes newParent with _ | np
      · have heq : s.rename_commit parent name newParent newName srcId (some tgtId) now
            = ({ s with inodes := eraseInode s.inodes tgtId, size := u64sub s.size tv.size
               }.rename_commit parent name newParent newName srcId none now) := by
          simp only [VFFS.rename_commit, VFFS.remove_inode, h1, h2, h3]
        rw [heq]
        exact rename_commit_none_storeOk _ parent name newParent newName srcId now hNUe hnde
          (fun np2 hnp2 => by
            rw [h2, h3] at hnp2
            exact Option.noConfusion hnp2)
      · rcases h4 : np.data with fnp | dnp
        · have heq : s.rename_commit parent name newParent newName srcId (some tgtId) now
              = ({ s with inodes := eraseInode s.inodes tgtId, size := u64sub s.size tv.size
                 }.rename_commit parent name newParent newName srcId none now) := by
            simp only [VFFS.rename_commit, VFFS.remove_inode, h1, h2, h3, h4]
          rw [heq]
          refine rename_commit_none_storeOk _ parent name newParent newName srcId now hNUe
            hnde (fun np2 hnp2 x hx => ?_)
          rw [h2, h3] at hnp2
          injection hnp2 with hnp3
          subst hnp3
          simp [nodesOf, h4] at hx
        · set np1 : Inode := { np with data := InodeData.directory { dnp with nodes := dnp.nodes.filter (fun x => x.1 != tgtId) } } with hnp1def
          have heq : s.rename_commit parent name newParent newName srcId (some tgtId) now
              = ({ s with inodes := insertInode (eraseInode s.inodes tgtId) newParent np1, size := u64sub s.size tv.size
                 }.rename_commit parent name newParent newName srcId none now) := by
            simp only [VFFS.rename_commit, VFFS.remove_inode, h1, h2, h3, h4, hnp1def]
          rw [heq]
          have hnpnames : (dirNames np).Nodup := namesUnique_mem s hNU newParent np h3
          have hfilternames : ((dnp.nodes.filter (fun x => x.1 != tgtId)).map
              (fun e => e.2.1)).Nodup :=
            names_filter_nodup _ _ (by simpa [dirNames, h4] using hnpnames)
          have hnp1names : (dirNames np1).Nodup := by
            simpa [dirNames, hnp1def] using hfilternames
          refine rename_commit_none_storeOk _ parent name newParent newName srcId now
            (forall_mem_insertInode _ _ _ hNUe hnp1names)
            (keysNodup_insertInode _ _ _ hnde) (fun np2 hnp2 x hx hxn => ?_)
          rcases lookupInode_insert_cases2 _ _ _ _ _ hnp2 with ⟨hk1, hk2⟩ | ⟨hk1, hk2⟩
          · subst hk2
            have hx2 : x ∈ dnp.nodes ∧ ¬x.1 = tgtId := by
              simpa [nodesOf, hnp1def] using hx
            exact hx2.2 (hkey np h3 x (by simpa [nodesOf, h4] using hx2.1) hxn)
          · exact absurd rfl hk1

/-- A single handler call preserves `StoreOk`, provided a `create` is not
reusing a name already present in its parent. -/
theorem storeOk_applyOp (cfg : Config) (s : VFFS) (t : Timespec) (op : Op)
    (hOk : StoreOk s) (hdup : createDup s op = false) :
    StoreOk (applyOp cfg s t op).1 := by
  obtain ⟨hNU, hnd⟩ := hOk
  cases op with
  | create parent nm mode umask uid gid =>
    simp only [applyOp, VFFS.create, VFFS.append_inode]
    split
    next => exact ⟨hNU, hnd⟩
    next =>
      split
      next => exact ⟨hNU, hnd⟩
      next p hp =>
        split
        next =>
          split
          next p1 hq =>
            refine ⟨forall_mem_insertInode _ _ _
              (forall_mem_insertInode _ _ _ hNU (by simp [dirNames])) ?_,
              keysNodup_insertInode _ _ _ (keysNodup_insertInode _ _ _ hnd)⟩
            rcases lookupInode_insert_cases2 _ _ _ _ _ hq with ⟨hk1, hk2⟩ | ⟨hk1, hk2⟩
            · subst hk2
              simp [Inode.append_file_to_directory, dirNames]
            · rw [hp] at hk2
              injection hk2 with hk3
              subst hk3
              rcases hd : p.data with f | d
              · simp [Inode.append_file_to_directory, hd, dirNames]
              · simp only [createDup, hp, hd] at hdup
                have hnone : findByName d.nodes nm = none := by
                  cases hfind : findByName d.nodes nm with
                  | none => rfl
                  | some e =>
                    rw [Directory.find_node_by_name, hfind] at hdup
                    exact Bool.noConfusion hdup
                have hnm : nm ∉ d.nodes.map (fun e => e.2.1) := by
                  intro hmem
                  rcases List.mem_map.mp hmem with ⟨x, hx, hx2⟩
                  exact (findByName_eq_none_iff d.nodes nm).mp hnone x hx hx2
                have hdn : (d.nodes.map (fun e => e.2.1)).Nodup := by
                  simpa [dirNames, hd] using namesUnique_mem s hNU parent p hp
                simp only [Inode.append_file_to_directory, hd, dirNames,
                  Directory.add_node]
                rw [List.map_append, List.nodup_append]
                refine ⟨hdn, List.nodup_singleton _, ?_⟩
                intro a ha hb
                simp only [List.map_cons, List.map_nil, List.mem_cons, List.not_mem_nil,
                  or_false] at hb
                subst hb
                exact hnm ha
          next hq =>
            exact ⟨forall_mem_insertInode _ _ _ hNU (by simp [dirNames]),
              keysNodup_insertInode _ _ _ hnd⟩
        next => exact ⟨hNU, hnd⟩
  | mkdir parent nm mode umask uid gid =>
    simp only [applyOp, VFFS.mkdir, VFFS.append_inode]
    split
    next => exact ⟨hNU, hnd⟩
    next =>
      split
      next => exact ⟨hNU, hnd⟩
      next p hp =>
        split
        next => exact ⟨hNU, hnd⟩
        next d hd =>
          split
          next => exact ⟨hNU, hnd⟩
          next hfind =>
            have hnone : findByName d.nodes nm = none := by
              cases hfind2 : findByName d.nodes nm with
              | none => rfl
              | some e =>
                rw [Directory.find_node_by_name, hfind2] at hfind
                simp at hfind
            have hdn : (d.nodes.map (fun e => e.2.1)).Nodup := by
              simpa [dirNames, hd] using namesUnique_mem s hNU parent p hp
            have hNU1 : ∀ q ∈ insertInode s.inodes parent (p.update_changes t), (dirNames q.2).Nodup := by
              refine forall_mem_insertInode _ _ _ hNU ?_
              simpa [dirNames, Inode.update_changes, hd] using hdn
            have hnd1 : keysNodup (insertInode s.inodes parent (p.update_changes t)) :=
              keysNodup_insertInode _ _ _ hnd
            split
            next p2 hq =>
              refine ⟨forall_mem_insertInode _ _ _
                (forall_mem_insertInode _ _ _ hNU1 (by simp [dirNames])) ?_,
                keysNodup_insertInode _ _ _ (keysNodup_insertInode _ _ _ hnd1)⟩
              rcases lookupInode_insert_cases2 _ _ _ _ _ hq with ⟨hk1, hk2⟩ | ⟨hk1, hk2⟩
              · subst hk2
                simp [Inode.append_file_to_directory, dirNames, Directory.add_node]
              · rw [lookupInode_insert_self] at hk2
                injection hk2 with hk3
                subst hk3
                have hnm : nm ∉ d.nodes.map (fun e => e.2.1) := by
                  intro hmem
                  rcases List.mem_map.mp hmem with ⟨x, hx, hx2⟩
                  exact (findByName_eq_none_iff d.nodes nm).mp hnone x hx hx2
                simp only [Inode.append_file_to_directory, Inode.update_changes, hd,
                  dirNames, Directory.add_node]
                rw [List.map_append, List.nodup_append]
                refine ⟨hdn, List.nodup_singleton _, ?_⟩
                intro a ha hb
                simp only [List.map_cons, List.map_nil, List.mem_cons, List.not_mem_nil,
                  or_false] at hb
                subst hb
                exact hnm ha
            next hq =>
              exact ⟨forall_mem_insertInode _ _ _ hNU1 (by simp [dirNames]),
                keysNodup_insertInode _ _ _ hnd1⟩
  | write ino data =>
    simp only [applyOp, VFFS.write_file_data]
    split
    next => exact ⟨hNU, hnd⟩
    next inode hp =>
      split
      next => exact ⟨hNU, hnd⟩
      next vf hvf =>
        split
        next =>
          exact ⟨forall_mem_insertInode _ _ _ hNU (by simp [dirNames]),
            keysNodup_insertInode _ _ _ hnd⟩
        next =>
          split
          next =>
            exact ⟨forall_mem_insertInode _ _ _ hNU
              (by simp [dirNames, Inode.update_changes]),
              keysNodup_insertInode _ _ _ hnd⟩
          next =>
            exact ⟨forall_mem_insertInode _ _ _ hNU
              (by simp [dirNames, Inode.update_changes]),
              keysNodup_insertInode _ _ _ hnd⟩
  | setattr ino mode uid gid sz atime =>
    simp only [applyOp, VFFS.setattr]
    split
    next => exact ⟨hNU, hnd⟩
    next inode hp =>
      refine ⟨forall_mem_insertInode _ _ _ hNU ?_, keysNodup_insertInode _ _ _ hnd⟩
      have := namesUnique_mem s hNU ino inode hp
      simpa [dirNames, Inode.update_changes] using this
  | unlink parent nm =>
    simp only [applyOp, VFFS.unlink]
    split
    next => exact ⟨hNU, hnd⟩
    next p hp =>
      split
      next => exact ⟨hNU, hnd⟩
      next d hd =>
        split
        next => exact ⟨hNU, hnd⟩
        next e hfind =>
          have hNU1 : ∀ q ∈ insertInode s.inodes parent (Inode.update_changes { p with data := InodeData.directory { d with nodes := d.nodes.filter (fun x => x.2.1 != nm) } } t), (dirNames q.2).Nodup := by
            refine forall_mem_insertInode _ _ _ hNU ?_
            have hdn : (d.nodes.map (fun e => e.2.1)).Nodup := by
              simpa [dirNames, hd] using namesUnique_mem s hNU parent p hp
            simpa [dirNames, Inode.update_changes] using
              names_filter_nodup d.nodes (fun x => x.2.1 != nm) hdn
          have hnd1 : keysNodup (insertInode s.inodes parent (Inode.update_changes { p with data := InodeData.directory { d with nodes := d.nodes.filter (fun x => x.2.1 != nm) } } t)) :=
            keysNodup_insertInode _ _ _ hnd
          simp only [VFFS.remove_inode]
          split
          next => exact ⟨forall_mem_eraseInode _ _ hNU1, keysNodup_eraseInode _ _ hnd1⟩
          next => exact ⟨hNU1, hnd1⟩
  | rmdir parent nm =>
    simp only [applyOp, VFFS.rmdir]
    split
    next => exact ⟨hNU, hnd⟩
    next p hp =>
      split
      next => exact ⟨hNU, hnd⟩
      next d hd =>
        split
        next => exact ⟨hNU, hnd⟩
        next e hfind =>
          split
          next => exact ⟨hNU, hnd⟩
          next tI htI =>
            split
            next => exact ⟨hNU, hnd⟩
            next td htd =>
              split
              next =>
                have hNU1 : ∀ q ∈ insertInode s.inodes parent (Inode.update_changes { p with data := InodeData.directory { d with nodes := d.nodes.filter (fun x => x.2.1 != nm) } } t), (dirNames q.2).Nodup := by
                  refine forall_mem_insertInode _ _ _ hNU ?_
                  have hdn : (d.nodes.map (fun e => e.2.1)).Nodup := by
                    simpa [dirNames, hd] using namesUnique_mem s hNU parent p hp
                  simpa [dirNames, Inode.update_changes] using
                    names_filter_nodup d.nodes (fun x => x.2.1 != nm) hdn
                have hnd1 : keysNodup (insertInode s.inodes parent (Inode.update_changes { p with data := InodeData.directory { d with nodes := d.nodes.filter (fun x => x.2.1 != nm) } } t)) :=
                  keysNodup_insertInode _ _ _ hnd
                simp only [VFFS.remove_inode]
                split
                next => exact ⟨forall_mem_eraseInode _ _ hNU1, keysNodup_eraseInode _ _ hnd1⟩
                next => exact ⟨hNU1, hnd1⟩
              next => exact ⟨hNU, hnd⟩
  | rename parent nm newParent newName =>
    simp only [applyOp, VFFS.rename]
    split
    next => exact ⟨hNU, hnd⟩
    next =>
      split
      next => exact ⟨hNU, hnd⟩
      next pI hp =>
        split
        next => exact ⟨hNU, hnd⟩
        next pDir hpd =>
          split
          next => exact ⟨hNU, hnd⟩
          next srcE hsrc =>
            split
            next => exact ⟨hNU, hnd⟩
            next npI hnp =>
              split
              next => exact ⟨hNU, hnd⟩
              next npDir hnpd =>
                split
                next tgtE htgt =>
                  have hkey : ∀ np, lookupInode s.inodes newParent = some np →
                      ∀ x ∈ nodesOf np, x.2.1 = newName → x.1 = tgtE.1 := by
                    intro np hnp2 x hx hxn
                    rw [hnp] at hnp2
                    injection hnp2 with hnp3
                    subst hnp3
                    have hx2 : x ∈ npDir.nodes := by simpa [nodesOf, hnpd] using hx
                    have hdn : (npDir.nodes.map (fun e => e.2.1)).Nodup := by
                      simpa [dirNames, hnpd] using namesUnique_mem s hNU newParent npI hnp
                    have := findByName_unique npDir.nodes newName tgtE hdn htgt x hx2 hxn
                    rw [this]
                  split
                  next => exact ⟨hNU, hnd⟩
                  next =>
                    split
                    next => exact ⟨hNU, hnd⟩
                    next tgtI htgtI =>
                      split
                      next td htd =>
                        split
                        next =>
                          exact rename_commit_some_storeOk s parent nm newParent newName
                            srcE.1 tgtE.1 t hNU hnd hkey
                        next => exact ⟨hNU, hnd⟩
                      next tf htf =>
                        exact rename_commit_some_storeOk s parent nm newParent newName
                          srcE.1 tgtE.1 t hNU hnd hkey
                next htgt =>
                  refine rename_commit_none_storeOk s parent nm newParent newName srcE.1 t
                    hNU hnd ?_
                  intro np hnp2 x hx hxn
                  rw [hnp] at hnp2
                  injection hnp2 with hnp3
                  subst hnp3
                  have hx2 : x ∈ npDir.nodes := by simpa [nodesOf, hnpd] using hx
                  exact (findByName_eq_none_iff npDir.nodes newName).mp htgt x hx2 hxn
/-- Fresh-name success runs preserve `StoreOk`. -/
theorem storeOk_runOpsFreshNames (cfg : Config) (ops : List (Timespec × Op)) :
    ∀ s s' : VFFS, StoreOk s → runOpsFreshNames cfg s ops = some s' → StoreOk s' := by
  induction ops with
  | nil =>
    intro s s' hOk h
    simp only [runOpsFreshNames, Option.some.injEq] at h
    exact h ▸ hOk
  | cons hd rest ih =>
    intro s s' hOk h
    obtain ⟨t, op⟩ := hd
    simp only [runOpsFreshNames] at h
    split at h
    · exact absurd h (by simp)
    · next hdup =>
      split at h
      · exact ih _ _ (storeOk_applyOp cfg s t op hOk (by simpa using hdup)) h
      · exact absurd h (by simp)

/-- A fresh filesystem satisfies `StoreOk`. -/
theorem storeOk_new (rootSize : Nat) (mount : String) (t0 : Timespec) :
    StoreOk (VFFS.new rootSize mount t0) := by
  constructor
  · intro p hp
    simp only [VFFS.new, List.mem_singleton] at hp
    subst hp
    simp [Inode.mkRoot, dirNames]
  · simp [VFFS.new, keysNodup, Inode.mkRoot]

/-- C4: starting from a fresh filesystem, a sequence of successful handler
calls in which no `create` reuses a name already present in its parent
leaves every directory with pairwise-distinct child names. -/
theorem c4_name_uniqueness (cfg : Config) (rootSize : Nat) (mount : String)
    (t0 : Timespec) (ops : List (Timespec × Op)) (s' : VFFS)
    (h : runOpsFreshNames cfg (VFFS.new rootSize mount t0) ops = some s') :
    NamesUnique s' :=
  (storeOk_runOpsFreshNames cfg ops (VFFS.new rootSize mount t0) s'
    (storeOk_new rootSize mount t0) h).1

/-- A concrete fresh-name workload: two creates, a mkdir, a create inside the
new directory, a write, a rename and an unlink. -/
def c4Ops : List (Timespec × Op) :=
  [((0, 0), .create 1 "a" 0o644 0 501 20),
   ((1, 0), .create 1 "b" 0o644 0 501 20),
   ((2, 0), .mkdir 1 "d" 0o755 0 501 20),
   ((3, 0), .create 4 "a" 0o644 0 501 20),
   ((4, 0), .write 2 [104, 105]),
   ((5, 0), .rename 1 "b" 4 "c"),
   ((6, 0), .unlink 1 "a")]

/-- The state reached by `c4Ops` (defaulting to the start state, never used). -/
def c4S : VFFS := (runOpsFreshNames cfgT fs0 c4Ops).getD fs0

theorem c4_name_uniqueness_witness :
    runOpsFreshNames cfgT fs0 c4Ops = some c4S ∧ NamesUnique c4S :=
  ⟨by decide, c4_name_uniqueness cfgT 0 "root" (0, 0) c4Ops c4S (by decide)⟩
/-! ### The accounting/capacity invariant behind C3 -/

/-- The invariant bundle C3 rests on: well-keyed store, a directory at the
root id, no child entry pointing at the root, keys below the id counter,
exact size accounting over the non-root inodes, and both capacity bounds. -/
def Acct (cfg : Config) (s : VFFS) : Prop :=
  keysNodup s.inodes ∧
  (∀ i, lookupInode s.inodes 1 = some i → i.is_directory = true) ∧
  (∀ p ∈ s.inodes, ∀ x ∈ nodesOf p.2, x.1 ≠ 1) ∧
  (∀ p ∈ s.inodes, p.1 < s.nextId) ∧
  2 ≤ s.nextId ∧
  s.size = sumNonRoot s.inodes ∧
  s.size ≤ cfg.maxMemory ∧
  FilesCapped cfg s

theorem size_append_file_to_directory (i : Inode) (e : Nat × String × FType) :
    (i.append_file_to_directory e).size = i.size := by
  unfold Inode.append_file_to_directory
  split <;> rfl

theorem is_directory_of_data_dir (i : Inode) (d : Directory)
    (h : i.data = InodeData.directory d) : i.is_directory = true := by
  simp [Inode.is_directory, h]

theorem is_file_of_data_dir (i : Inode) (d : Directory)
    (h : i.data = InodeData.directory d) : i.is_file = false := by
  simp [Inode.is_file, h]

theorem is_directory_of_data_file (i : Inode) (f : File)
    (h : i.data = InodeData.file f) : i.is_directory = false := by
  simp [Inode.is_directory, h]

theorem is_file_of_data_file (i : Inode) (f : File)
    (h : i.data = InodeData.file f) : i.is_file = true := by
  simp [Inode.is_file, h]

theorem is_directory_append_file_to_directory (i : Inode) (e : Nat × String × FType) :
    (i.append_file_to_directory e).is_directory = i.is_directory := by
  rcases hd : i.data with f | d <;>
    simp [Inode.append_file_to_directory, Inode.is_directory, hd]

theorem is_file_append_file_to_directory (i : Inode) (e : Nat × String × FType) :
    (i.append_file_to_directory e).is_file = i.is_file := by
  rcases hd : i.data with f | d <;>
    simp [Inode.append_file_to_directory, Inode.is_file, hd]

theorem mem_nodesOf_append_file_to_directory (i : Inode) (e x : Nat × String × FType)
    (hx : x ∈ nodesOf (i.append_file_to_directory e)) : x ∈ nodesOf i ∨ x = e := by
  rcases hd : i.data with f | d
  · simp only [Inode.append_file_to_directory, hd] at hx
    exact Or.inl hx
  · simp only [Inode.append_file_to_directory, hd, nodesOf, Directory.add_node,
      List.mem_append, List.mem_singleton] at hx
    rcases hx with h | h
    · left
      simpa [nodesOf, hd] using h
    · right
      exact h

/-- Re-inserting at an existing key a value of the same size and kind whose
child entries come from the old value or avoid the root id preserves the
invariant. -/
theorem acct_insert_same (cfg : Config) (s : VFFS) (k : Nat) (v w : Inode)
    (hA : Acct cfg s) (hv : lookupInode s.inodes k = some v)
    (hsize : w.size = v.size) (hdir : w.is_directory = v.is_directory)
    (hfile : w.is_file = v.is_file)
    (hent : ∀ x ∈ nodesOf w, x ∈ nodesOf v ∨ x.1 ≠ 1) :
    Acct cfg { s with inodes := insertInode s.inodes k w } := by
  obtain ⟨hnd, hroot, hen, hkb, hn2, hsum, hcap, hfc⟩ := hA
  have hmem := lookupInode_mem s.inodes k v hv
  refine ⟨keysNodup_insertInode _ _ _ hnd, ?_, ?_, ?_, hn2, ?_, hcap, ?_⟩
  · intro i hi
    have hi' : lookupInode (insertInode s.inodes k w) 1 = some i := hi
    by_cases hk : k = 1
    · subst hk
      rw [lookupInode_insert_self] at hi'
      injection hi' with hi2
      rw [← hi2, hdir]
      exact hroot v hv
    · rw [lookupInode_insert_ne _ _ _ _ (Ne.symm hk)] at hi'
      exact hroot i hi'
  · refine forall_mem_insertInode _ _ _ hen ?_
    intro x hx
    rcases hent x hx with h | h
    · exact hen (k, v) hmem x h
    · exact h
  · exact forall_mem_insertInode _ _ _ hkb (hkb (k, v) hmem)
  · show s.size = sumNonRoot (insertInode s.inodes k w)
    rw [sumNonRoot_insert_same_size s.inodes k v w hv hsize]
    exact hsum
  · refine forall_mem_insertInode _ _ _ hfc ?_
    intro hf
    show w.size ≤ cfg.maxFileSize
    rw [hsize]
    exact hfc (k, v) hmem (by rw [← hfile]; exact hf)

/-- `remove_inode` at a non-root key preserves the invariant. -/
theorem acct_remove_inode (cfg : Config) (s : VFFS) (k : Nat)
    (hA : Acct cfg s) (hM : cfg.maxMemory < 2 ^ 63) (hk : k ≠ 1) :
    Acct cfg (s.remove_inode k) := by
  obtain ⟨hnd, hroot, hen, hkb, hn2, hsum, hcap, hfc⟩ := hA
  rw [VFFS.remove_inode]
  split
  next i hre =>
    have hile : i.size ≤ s.size := by
      rw [hsum]
      exact size_le_sumNonRoot s.inodes k i hre hk
    have h63 : (2 : Nat) ^ 63 < U64MOD := by norm_num [U64MOD]
    have hlt : s.size < U64MOD := by omega
    refine ⟨keysNodup_eraseInode _ _ hnd, ?_, ?_, ?_, hn2, ?_, ?_, ?_⟩
    · intro j hj
      have hj' : lookupInode (eraseInode s.inodes k) 1 = some j := hj
      rw [lookupInode_erase_ne s.inodes k 1 (Ne.symm hk)] at hj'
      exact hroot j hj'
    · exact forall_mem_eraseInode _ _ hen
    · exact forall_mem_eraseInode _ _ hkb
    · show u64sub s.size i.size = sumNonRoot (eraseInode s.inodes k)
      have he := sumNonRoot_erase s.inodes k i hre hk
      rw [u64sub_small s.size i.size hile hlt]
      omega
    · show u64sub s.size i.size ≤ cfg.maxMemory
      rw [u64sub_small s.size i.size hile hlt]
      omega
    · exact forall_mem_eraseInode _ _ hfc
  next hre => exact ⟨hnd, hroot, hen, hkb, hn2, hsum, hcap, hfc⟩

/-- Appending a fresh zero-sized, childless inode at the next id (the
`append_inode` step of `create`/`mkdir`, counter already bumped) preserves
the invariant. -/
theorem acct_append_fresh (cfg : Config) (s : VFFS) (v : Inode)
    (hA : Acct cfg s) (hM : cfg.maxMemory < 2 ^ 63)
    (hsize : v.size = 0) (hent : nodesOf v = []) :
    Acct cfg { inodes := insertInode s.inodes s.nextId v, size := u64add s.size 0, nextId := s.nextId + 1 } := by
  obtain ⟨hnd, hroot, hen, hkb, hn2, hsum, hcap, hfc⟩ := hA
  have hfresh : lookupInode s.inodes s.nextId = none := by
    rw [lookupInode_eq_none_iff]
    intro p hp
    exact Nat.ne_of_lt (hkb p hp)
  have hone : (1 : Nat) ≠ s.nextId := by omega
  have h63 : (2 : Nat) ^ 63 < U64MOD := by norm_num [U64MOD]
  have hadd : u64add s.size 0 = s.size := u64add_small s.size 0 (by omega)
  refine ⟨keysNodup_insertInode _ _ _ hnd, ?_, ?_, ?_, ?_, ?_, ?_, ?_⟩
  · intro i hi
    have hi' : lookupInode (insertInode s.inodes s.nextId v) 1 = some i := hi
    rw [lookupInode_insert_ne _ _ _ _ hone] at hi'
    exact hroot i hi'
  · refine forall_mem_insertInode _ _ _ hen ?_
    intro x hx
    rw [hent] at hx
    exact absurd hx (List.not_mem_nil x)
  · refine forall_mem_insertInode _ _ _ ?_ ?_
    · intro p hp
      have := hkb p hp
      show p.1 < s.nextId + 1
      omega
    · show s.nextId < s.nextId + 1
      omega
  · show 2 ≤ s.nextId + 1
    omega
  · show u64add s.size 0 = sumNonRoot (insertInode s.inodes s.nextId v)
    rw [sumNonRoot_insert_fresh s.inodes s.nextId v hfresh, hadd, hsize]
    simp [hsum]
  · show u64add s.size 0 ≤ cfg.maxMemory
    rw [hadd]
    exact hcap
  · refine forall_mem_insertInode _ _ _ hfc ?_
    intro _
    show v.size ≤ cfg.maxFileSize
    rw [hsize]
    exact Nat.zero_le _
/-- The commit phase of `rename` preserves the invariant (whatever it
replies): every step re-inserts same-size, same-kind values or removes a
non-root inode. -/
theorem acct_rename_commit (cfg : Config) (s : VFFS) (parent : Nat) (name : String)
    (newParent : Nat) (newName : String) (srcId : Nat) (tgt : Option Nat) (t : Timespec)
    (hA : Acct cfg s) (hM : cfg.maxMemory < 2 ^ 63) (hsrc : srcId ≠ 1)
    (htgt : ∀ tgtId, tgt = some tgtId → tgtId ≠ 1) :
    Acct cfg (VFFS.rename_commit s parent name newParent newName srcId tgt t).1 := by
  suffices htail : ∀ s' : VFFS, Acct cfg s' →
      Acct cfg (VFFS.rename_commit s' parent name newParent newName srcId none t).1 by
    cases tgt with
    | none => exact htail s hA
    | some tgtId =>
      have h1 : Acct cfg (s.remove_inode tgtId) :=
        acct_remove_inode cfg s tgtId hA hM (htgt tgtId rfl)
      simp only [VFFS.rename_commit]
      rcases hnp : lookupInode (s.remove_inode tgtId).inodes newParent with _ | np
      · simp only [hnp]
        exact htail (s.remove_inode tgtId) h1
      · simp only [hnp]
        rcases hnd : np.data with f | d
        · simp only [hnd]
          exact htail (s.remove_inode tgtId) h1
        · simp only [hnd]
          refine htail { s.remove_inode tgtId with inodes := insertInode (s.remove_inode tgtId).inodes newParent { np with data := InodeData.directory { d with nodes := List.filter (fun x => x.1 != tgtId) d.nodes } } } ?_
          refine acct_insert_same cfg (s.remove_inode tgtId) newParent np _ h1 hnp rfl ?_ ?_ ?_
          · simp [Inode.is_directory, hnd]
          · simp [Inode.is_file, hnd]
          · intro x hx
            left
            have hx' : x ∈ List.filter (fun x => x.1 != tgtId) d.nodes := hx
            simpa [nodesOf, hnd] using List.mem_of_mem_filter hx'
  intro s' hA'
  simp only [VFFS.rename_commit, Inode.update_changes]
  rcases hp : lookupInode s'.inodes parent with _ | pI
  · simpa only [hp] using hA'
  · simp only [hp]
    rcases hpd : pI.data with f | pd
    · simp only [hpd]
      refine acct_insert_same cfg s' parent pI _ hA' hp rfl ?_ ?_ ?_
      · simp [Inode.is_directory, hpd]
      · simp [Inode.is_file, hpd]
      · intro x hx
        simp [nodesOf] at hx
    · simp only [hpd]
      rcases hfind : pd.find_node_by_name name with _ | src
      · simp only [hfind]
        refine acct_insert_same cfg s' parent pI _ hA' hp rfl ?_ ?_ ?_
        · simp [Inode.is_directory, hpd]
        · simp [Inode.is_file, hpd]
        · intro x hx
          left
          have hx' : x ∈ pd.nodes := hx
          simpa [nodesOf, hpd] using hx'
      · simp only [hfind]
        have hB : Acct cfg { s' with inodes := insertInode s'.inodes parent { pI with updated_at := t, metadata_change_at := t, data := InodeData.directory { pd with nodes := List.filter (fun x => x.1 != srcId) pd.nodes } } } := by
          refine acct_insert_same cfg s' parent pI _ hA' hp rfl ?_ ?_ ?_
          · simp [Inode.is_directory, hpd]
          · simp [Inode.is_file, hpd]
          · intro x hx
            left
            have hx' : x ∈ List.filter (fun x => x.1 != srcId) pd.nodes := hx
            simpa [nodesOf, hpd] using List.mem_of_mem_filter hx'
        rcases hnp : lookupInode (insertInode s'.inodes parent { pI with updated_at := t, metadata_change_at := t, data := InodeData.directory { pd with nodes := List.filter (fun x => x.1 != srcId) pd.nodes } }) newParent with _ | npI
        · simpa only [hnp] using hB
        · simp only [hnp]
          rcases hnd2 : npI.data with f2 | d2
          · simp only [hnd2]
            have hC : Acct cfg { { s' with inodes := insertInode s'.inodes parent { pI with updated_at := t, metadata_change_at := t, data := InodeData.directory { pd with nodes := List.filter (fun x => x.1 != srcId) pd.nodes } } } with inodes := insertInode (insertInode s'.inodes parent { pI with updated_at := t, metadata_change_at := t, data := InodeData.directory { pd with nodes := List.filter (fun x => x.1 != srcId) pd.nodes } }) newParent { npI with updated_at := t, metadata_change_at := t, data := InodeData.file f2 } } := by
              refine acct_insert_same cfg _ newParent npI _ hB hnp rfl ?_ ?_ ?_
              · simp [Inode.is_directory, hnd2]
              · simp [Inode.is_file, hnd2]
              · intro x hx
                simp [nodesOf] at hx
            rcases hsrc2 : lookupInode (insertInode (insertInode s'.inodes parent { pI with updated_at := t, metadata_change_at := t, data := InodeData.directory { pd with nodes := List.filter (fun x => x.1 != srcId) pd.nodes } }) newParent { npI with updated_at := t, metadata_change_at := t, data := InodeData.file f2 }) srcId with _ | srcI
            · simpa only [hsrc2] using hC
            · simp only [hsrc2]
              rcases hsd : srcI.data with f3 | d3
              · simp only [hsd]
                refine acct_insert_same cfg _ srcId srcI _ hC hsrc2 rfl ?_ ?_ ?_
                · simp [Inode.is_directory, hsd]
                · simp [Inode.is_file, hsd]
                · intro x hx
                  exact absurd hx (List.not_mem_nil x)
              · simp only [hsd]
                refine acct_insert_same cfg _ srcId srcI _ hC hsrc2 rfl ?_ ?_ ?_
                · simp [Inode.is_directory, hsd]
                · simp [Inode.is_file, hsd]
                · intro x hx
                  left
                  have hx' : x ∈ d3.nodes := hx
                  simpa [nodesOf, hsd] using hx'
          · simp only [hnd2]
            have hC : Acct cfg { { s' with inodes := insertInode s'.inodes parent { pI with updated_at := t, metadata_change_at := t, data := InodeData.directory { pd with nodes := List.filter (fun x => x.1 != srcId) pd.nodes } } } with inodes := insertInode (insertInode s'.inodes parent { pI with updated_at := t, metadata_change_at := t, data := InodeData.directory { pd with nodes := List.filter (fun x => x.1 != srcId) pd.nodes } }) newParent { npI with updated_at := t, metadata_change_at := t, data := InodeData.directory (Directory.add_node d2 (srcId, newName, src.2.2)) } } := by
              refine acct_insert_same cfg _ newParent npI _ hB hnp rfl ?_ ?_ ?_
              · simp [Inode.is_directory, hnd2]
              · simp [Inode.is_file, hnd2]
              · intro x hx
                have hx' : x ∈ d2.nodes ++ [(srcId, newName, src.2.2)] := hx
                rcases List.mem_append.mp hx' with h | h
                · left
                  simpa [nodesOf, hnd2] using h
                · right
                  rw [List.mem_singleton] at h
                  rw [h]
                  exact hsrc
            rcases hsrc2 : lookupInode (insertInode (insertInode s'.inodes parent { pI with updated_at := t, metadata_change_at := t, data := InodeData.directory { pd with nodes := List.filter (fun x => x.1 != srcId) pd.nodes } }) newParent { npI with updated_at := t, metadata_change_at := t, data := InodeData.directory (Directory.add_node d2 (srcId, newName, src.2.2)) }) srcId with _ | srcI
            · simpa only [hsrc2] using hC
            · simp only [hsrc2]
              rcases hsd : srcI.data with f3 | d3
              · simp only [hsd]
                refine acct_insert_same cfg _ srcId srcI _ hC hsrc2 rfl ?_ ?_ ?_
                · simp [Inode.is_directory, hsd]
                · simp [Inode.is_file, hsd]
                · intro x hx
                  exact absurd hx (List.not_mem_nil x)
              · simp only [hsd]
                refine acct_insert_same cfg _ srcId srcI _ hC hsrc2 rfl ?_ ?_ ?_
                · simp [Inode.is_directory, hsd]
                · simp [Inode.is_file, hsd]
                · intro x hx
                  left
                  have hx' : x ∈ d3.nodes := hx
                  simpa [nodesOf, hsd] using hx'
/-- Any successful handler call that is not a size-carrying `setattr`
preserves the accounting/capacity invariant. -/
theorem acct_applyOp (cfg : Config) (s : VFFS) (t : Timespec) (op : Op)
    (hM : cfg.maxMemory < 2 ^ 63) (hF : cfg.maxFileSize < 2 ^ 63)
    (hA : Acct cfg s) (hsz : noSetattrSize op = true)
    (hsucc : (applyOp cfg s t op).2 = true) :
    Acct cfg (applyOp cfg s t op).1 := by
  cases op with
  | create parent nm mode umask uid gid =>
    by_cases hlen : MAX_NODE_NAME_LENGTH < nm.utf8ByteSize
    · simp only [applyOp, VFFS.create, if_pos hlen]
      exact hA
    · rcases hlk : lookupInode s.inodes parent with _ | p
      · simp only [applyOp, VFFS.create, if_neg hlen, hlk]
        exact hA
      · by_cases hpd : p.is_directory = true
        · simp only [applyOp, VFFS.create, if_neg hlen, hlk, if_pos hpd, VFFS.append_inode]
          have hpn : parent ≠ s.nextId :=
            Nat.ne_of_lt (hA.2.2.2.1 (parent, p) (lookupInode_mem _ _ _ hlk))
          have hn2 := hA.2.2.2.2.1
          have hmid : Acct cfg { inodes := insertInode s.inodes s.nextId { id := s.nextId, size := 0, updated_at := t, accessed_at := t, metadata_change_at := t, data := InodeData.file { name := nm, data := [] }, mode := modeMask mode umask, hardlinks := 1, uid := uid, gid := gid, xattrs := [] }, size := u64add s.size 0, nextId := s.nextId + 1 } :=
            acct_append_fresh cfg s _ hA hM rfl rfl
          split
          next p1 hq =>
            rw [lookupInode_insert_ne _ _ _ _ hpn, hlk] at hq
            injection hq with hq2
            subst hq2
            refine acct_insert_same cfg _ parent p _ hmid ?_
              (size_append_file_to_directory p _) (is_directory_append_file_to_directory p _)
              (is_file_append_file_to_directory p _) ?_
            · rw [lookupInode_insert_ne _ _ _ _ hpn]
              exact hlk
            · intro x hx
              rcases mem_nodesOf_append_file_to_directory p _ x hx with h | h
              · exact Or.inl h
              · right
                rw [h]
                show s.nextId ≠ 1
                omega
          next hq => exact hmid
        · simp only [applyOp, VFFS.create, if_neg hlen, hlk, if_neg hpd]
          exact hA
  | mkdir parent nm mode umask uid gid =>
    by_cases hlen : MAX_NODE_NAME_LENGTH < nm.utf8ByteSize
    · simp only [applyOp, VFFS.mkdir, if_pos hlen]
      exact hA
    · rcases hlk : lookupInode s.inodes parent with _ | p
      · simp only [applyOp, VFFS.mkdir, if_neg hlen, hlk]
        exact hA
      · rcases hdat : p.data with f | d
        · simp only [applyOp, VFFS.mkdir, if_neg hlen, hlk, hdat]
          exact hA
        · by_cases hex : (d.find_node_by_name nm).isSome = true
          · simp only [applyOp, VFFS.mkdir, if_neg hlen, hlk, hdat, if_pos hex]
            exact hA
          · simp only [applyOp, VFFS.mkdir, if_neg hlen, hlk, hdat, if_neg hex,
              VFFS.append_inode]
            have hpn : parent ≠ s.nextId :=
              Nat.ne_of_lt (hA.2.2.2.1 (parent, p) (lookupInode_mem _ _ _ hlk))
            have hn2 := hA.2.2.2.2.1
            have hAp : Acct cfg { s with inodes := insertInode s.inodes parent (Inode.update_changes p t) } :=
              acct_insert_same cfg s parent p _ hA hlk rfl rfl rfl (fun x hx => Or.inl hx)
            have hmid : Acct cfg { inodes := insertInode (insertInode s.inodes parent (Inode.update_changes p t)) s.nextId { id := s.nextId, size := 0, updated_at := t, accessed_at := t, metadata_change_at := t, data := InodeData.directory { name := nm, nodes := [] }, mode := modeMask mode umask, hardlinks := 1, uid := uid, gid := gid, xattrs := [] }, size := u64add s.size 0, nextId := s.nextId + 1 } :=
              acct_append_fresh cfg { s with inodes := insertInode s.inodes parent (Inode.update_changes p t) } _ hAp hM rfl rfl
            split
            next p2 hq =>
              rw [lookupInode_insert_ne _ _ _ _ hpn, lookupInode_insert_self] at hq
              injection hq with hq2
              subst hq2
              refine acct_insert_same cfg _ parent (Inode.update_changes p t) _ hmid ?_
                (size_append_file_to_directory _ _) (is_directory_append_file_to_directory _ _)
                (is_file_append_file_to_directory _ _) ?_
              · rw [lookupInode_insert_ne _ _ _ _ hpn, lookupInode_insert_self]
              · intro x hx
                rcases mem_nodesOf_append_file_to_directory _ _ x hx with h | h
                · exact Or.inl h
                · right
                  rw [h]
                  show s.nextId ≠ 1
                  omega
            next hq => exact hmid
  | write ino data =>
    rcases hlk : lookupInode s.inodes ino with _ | inode
    · simp [applyOp, VFFS.write_file_data, hlk] at hsucc
    · rcases hdat : inode.data with f | d
      · simp only [applyOp, VFFS.write_file_data, hlk, hdat] at hsucc ⊢
        by_cases hbig : cfg.maxFileSize < u64add inode.size (data.length % U64MOD)
        · rw [if_pos hbig] at hsucc
          simp at hsucc
        · rw [if_neg hbig] at hsucc ⊢
          by_cases hmm2 : cfg.maxMemory < i64toU64 (toI64 s.size + (toI64 (u64add inode.size (data.length % U64MOD)) - toI64 inode.size))
          · rw [if_pos hmm2] at hsucc
            simp at hsucc
          · rw [if_neg hmm2]
            obtain ⟨hnd, hroot, hen, hkb, hn2, hsum, hcap, hfc⟩ := hA
            have hino1 : ino ≠ 1 := by
              intro he
              rw [he] at hlk
              have h2 := hroot inode hlk
              simp [Inode.is_directory, hdat] at h2
            have hmm3 := lookupInode_mem s.inodes ino inode hlk
            have hold : inode.size ≤ s.size := by
              rw [hsum]
              exact size_le_sumNonRoot s.inodes ino inode hlk hino1
            have hsz63 : s.size < 2 ^ 63 := lt_of_le_of_lt hcap hM
            have hfs : u64add inode.size (data.length % U64MOD) ≤ cfg.maxFileSize :=
              not_lt.mp hbig
            have hfs63 : u64add inode.size (data.length % U64MOD) < 2 ^ 63 :=
              lt_of_le_of_lt hfs hF
            have hNT := i64_newTotal s.size inode.size
              (u64add inode.size (data.length % U64MOD)) hsz63 hold hfs63
            have hcap2 := not_lt.mp hmm2
            refine ⟨keysNodup_insertInode _ _ _ hnd, ?_, ?_, ?_, hn2, ?_, hcap2, ?_⟩
            · intro i hi
              rw [lookupInode_insert_ne _ _ _ _ (Ne.symm hino1)] at hi
              exact hroot i hi
            · refine forall_mem_insertInode _ _ _ hen ?_
              intro x hx
              simp [nodesOf, Inode.update_changes] at hx
            · exact forall_mem_insertInode _ _ _ hkb (hkb (ino, inode) hmm3)
            · show i64toU64 (toI64 s.size + (toI64 (u64add inode.size (data.length % U64MOD)) - toI64 inode.size)) = sumNonRoot (insertInode s.inodes ino (Inode.update_changes { inode with data := InodeData.file (File.write_date f data), size := u64add inode.size (data.length % U64MOD) } t))
              have hins := sumNonRoot_insert s.inodes ino inode
                (Inode.update_changes { inode with data := InodeData.file (File.write_date f data), size := u64add inode.size (data.length % U64MOD) } t) hlk
              have hI2 : (Inode.update_changes { inode with data := InodeData.file (File.write_date f data), size := u64add inode.size (data.length % U64MOD) } t).size = u64add inode.size (data.length % U64MOD) := rfl
              rw [hI2] at hins
              simp only [if_neg hino1] at hins
              rw [hNT]
              omega
            · exact forall_mem_insertInode _ _ _ hfc (fun _ => hfs)
      · simp [applyOp, VFFS.write_file_data, hlk, hdat] at hsucc
  | setattr ino mode uid gid sz atime =>
    simp only [noSetattrSize] at hsz
    cases sz with
    | some n => simp at hsz
    | none =>
      rcases hlk : lookupInode s.inodes ino with _ | inode
      · simp only [applyOp, VFFS.setattr, hlk]
        exact hA
      · simp only [applyOp, VFFS.setattr, hlk]
        exact acct_insert_same cfg s ino inode _ hA hlk rfl rfl rfl (fun x hx => Or.inl hx)
  | unlink parent nm =>
    rcases hlk : lookupInode s.inodes parent with _ | p
    · simp only [applyOp, VFFS.unlink, hlk]
      exact hA
    · rcases hdat : p.data with f | d
      · simp only [applyOp, VFFS.unlink, hlk, hdat]
        exact hA
      · rcases hfind : d.find_node_by_name nm with _ | e
        · simp only [applyOp, VFFS.unlink, hlk, hdat, hfind]
          exact hA
        · simp only [applyOp, VFFS.unlink, hlk, hdat, hfind]
          have he1 : e.1 ≠ 1 := hA.2.2.1 (parent, p) (lookupInode_mem _ _ _ hlk) e
            (by simpa [nodesOf, hdat] using (findByName_some d.nodes nm e hfind).1)
          refine acct_remove_inode cfg _ e.1 ?_ hM he1
          refine acct_insert_same cfg s parent p _ hA hlk rfl ?_ ?_ ?_
          · simp [Inode.is_directory, Inode.update_changes, hdat]
          · simp [Inode.is_file, Inode.update_changes, hdat]
          · intro x hx
            left
            have hx' : x ∈ List.filter (fun x => x.2.1 != nm) d.nodes := hx
            simpa [nodesOf, hdat] using List.mem_of_mem_filter hx'
  | rmdir parent nm =>
    rcases hlk : lookupInode s.inodes parent with _ | p
    · simp only [applyOp, VFFS.rmdir, hlk]
      exact hA
    · rcases hdat : p.data with f | d
      · simp only [applyOp, VFFS.rmdir, hlk, hdat]
        exact hA
      · rcases hfind : d.find_node_by_name nm with _ | e
        · simp only [applyOp, VFFS.rmdir, hlk, hdat, hfind]
          exact hA
        · rcases hlk2 : lookupInode s.inodes e.1 with _ | target
          · simp only [applyOp, VFFS.rmdir, hlk, hdat, hfind, hlk2]
            exact hA
          · rcases hdat2 : target.data with f2 | td
            · simp only [applyOp, VFFS.rmdir, hlk, hdat, hfind, hlk2, hdat2]
              exact hA
            · by_cases hemp : td.nodes.isEmpty = true
              · simp only [applyOp, VFFS.rmdir, hlk, hdat, hfind, hlk2, hdat2, if_pos hemp]
                have he1 : e.1 ≠ 1 := hA.2.2.1 (parent, p) (lookupInode_mem _ _ _ hlk) e
                  (by simpa [nodesOf, hdat] using (findByName_some d.nodes nm e hfind).1)
                refine acct_remove_inode cfg _ e.1 ?_ hM he1
                refine acct_insert_same cfg s parent p _ hA hlk rfl ?_ ?_ ?_
                · simp [Inode.is_directory, Inode.update_changes, hdat]
                · simp [Inode.is_file, Inode.update_changes, hdat]
                · intro x hx
                  left
                  have hx' : x ∈ List.filter (fun x => x.2.1 != nm) d.nodes := hx
                  simpa [nodesOf, hdat] using List.mem_of_mem_filter hx'
              · simp only [applyOp, VFFS.rmdir, hlk, hdat, hfind, hlk2, hdat2, if_neg hemp]
                exact hA
  | rename parent nm newParent newName =>
    by_cases hlen : MAX_NODE_NAME_LENGTH < newName.utf8ByteSize
    · simp only [applyOp, VFFS.rename, if_pos hlen]
      exact hA
    · rcases hlk : lookupInode s.inodes parent with _ | pI
      · simp only [applyOp, VFFS.rename, if_neg hlen, hlk]
        exact hA
      · rcases hdat : pI.data with f | pDir
        · simp only [applyOp, VFFS.rename, if_neg hlen, hlk, hdat]
          exact hA
        · rcases hfind : pDir.find_node_by_name nm with _ | srcE
          · simp only [applyOp, VFFS.rename, if_neg hlen, hlk, hdat, hfind]
            exact hA
          · rcases hnp : lookupInode s.inodes newParent with _ | npI
            · simp only [applyOp, VFFS.rename, if_neg hlen, hlk, hdat, hfind, hnp]
              exact hA
            · rcases hnd2 : npI.data with f2 | npDir
              · simp only [applyOp, VFFS.rename, if_neg hlen, hlk, hdat, hfind, hnp, hnd2]
                exact hA
              · have hsrc1 : srcE.1 ≠ 1 := hA.2.2.1 (parent, pI) (lookupInode_mem _ _ _ hlk)
                  srcE (by simpa [nodesOf, hdat] using (findByName_some pDir.nodes nm srcE hfind).1)
                rcases hfT : npDir.find_node_by_name newName with _ | tgtE
                · simp only [applyOp, VFFS.rename, if_neg hlen, hlk, hdat, hfind, hnp,
                    hnd2, hfT]
                  exact acct_rename_commit cfg s parent nm newParent newName srcE.1 none t
                    hA hM hsrc1 (fun tid htid => Option.noConfusion htid)
                · have htgt1 : tgtE.1 ≠ 1 := hA.2.2.1 (newParent, npI)
                    (lookupInode_mem _ _ _ hnp) tgtE
                    (by simpa [nodesOf, hnd2] using (findByName_some npDir.nodes newName tgtE hfT).1)
                  by_cases heq : tgtE.1 = srcE.1
                  · simp only [applyOp, VFFS.rename, if_neg hlen, hlk, hdat, hfind, hnp,
                      hnd2, hfT, if_pos heq]
                    exact hA
                  · rcases hlkT : lookupInode s.inodes tgtE.1 with _ | tgtI
                    · simp only [applyOp, VFFS.rename, if_neg hlen, hlk, hdat, hfind, hnp,
                        hnd2, hfT, if_neg heq, hlkT]
                      exact hA
                    · rcases hdT : tgtI.data with fT | tdT
                      · simp only [applyOp, VFFS.rename, if_neg hlen, hlk, hdat, hfind,
                          hnp, hnd2, hfT, if_neg heq, hlkT, hdT]
                        exact acct_rename_commit cfg s parent nm newParent newName srcE.1
                          (some tgtE.1) t hA hM hsrc1
                          (fun tid htid => by injection htid with h2; exact h2 ▸ htgt1)
                      · by_cases hemp : tdT.nodes.isEmpty = true
                        · simp only [applyOp, VFFS.rename, if_neg hlen, hlk, hdat, hfind,
                            hnp, hnd2, hfT, if_neg heq, hlkT, hdT, if_pos hemp]
                          exact acct_rename_commit cfg s parent nm newParent newName srcE.1
                            (some tgtE.1) t hA hM hsrc1
                            (fun tid htid => by injection htid with h2; exact h2 ▸ htgt1)
                        · simp only [applyOp, VFFS.rename, if_neg hlen, hlk, hdat, hfind,
                            hnp, hnd2, hfT, if_neg heq, hlkT, hdT, if_neg hemp]
                          exact hA
/-- The invariant is carried along any successful run without size-carrying
`setattr` calls. -/
theorem acct_runOps (cfg : Config) (hM : cfg.maxMemory < 2 ^ 63)
    (hF : cfg.maxFileSize < 2 ^ 63) :
    ∀ ops : List (Timespec × Op), (∀ p ∈ ops, noSetattrSize p.2 = true) →
    ∀ s s' : VFFS, Acct cfg s → runOps cfg s ops = some s' → Acct cfg s' := by
  intro ops
  induction ops with
  | nil =>
    intro _ s s' hA h
    simp only [runOps, Option.some.injEq] at h
    exact h ▸ hA
  | cons hd rest ih =>
    intro hops s s' hA h
    obtain ⟨t, op⟩ := hd
    simp only [runOps] at h
    split at h
    next hsucc =>
      exact ih (fun p hp => hops p (List.mem_cons_of_mem _ hp)) _ _
        (acct_applyOp cfg s t op hM hF hA (hops (t, op) (List.mem_cons_self _ _)) hsucc) h
    next hsucc => exact absurd h (by simp)

/-- A fresh filesystem satisfies the invariant, whatever the platform value
of the root inode's size. -/
theorem acct_new (cfg : Config) (rootSize : Nat) (mount : String) (t0 : Timespec) :
    Acct cfg (VFFS.new rootSize mount t0) := by
  refine ⟨?_, ?_, ?_, ?_, ?_, ?_, ?_, ?_⟩
  · simp [VFFS.new, keysNodup]
  · intro i hi
    have hr : lookupInode (VFFS.new rootSize mount t0).inodes 1
        = some (Inode.mkRoot rootSize mount t0) := rfl
    rw [hr] at hi
    injection hi with h2
    rw [← h2]
    rfl
  · intro p hp
    simp only [VFFS.new, List.mem_singleton] at hp
    subst hp
    intro x hx
    simp [nodesOf, Inode.mkRoot] at hx
  · intro p hp
    simp only [VFFS.new, List.mem_singleton] at hp
    subst hp
    show 1 < 2
    omega
  · show 2 ≤ 2
    omega
  · rfl
  · show 0 ≤ cfg.maxMemory
    exact Nat.zero_le _
  · intro p hp
    simp only [VFFS.new, List.mem_singleton] at hp
    subst hp
    intro hf
    simp [Inode.mkRoot, Inode.is_file] at hf

/-- C3 (amended): from a fresh filesystem, after any sequence of successful
handler operations none of which is a `setattr` carrying a size, the
store's total size is within `max_memory` and every File inode's size is
within `max_file_size` (for capacities below `2^63`, as on the actual
platform). An unrestricted sequence breaks the claim: `setattr` assigns
any requested size with no capacity check. -/
theorem c3_capacity_invariant (cfg : Config) (rootSize : Nat) (mount : String)
    (t0 : Timespec) (ops : List (Timespec × Op)) (s' : VFFS)
    (hM : cfg.maxMemory < 2 ^ 63) (hF : cfg.maxFileSize < 2 ^ 63)
    (hops : ∀ p ∈ ops, noSetattrSize p.2 = true)
    (h : runOps cfg (VFFS.new rootSize mount t0) ops = some s') :
    s'.size ≤ cfg.maxMemory ∧ FilesCapped cfg s' := by
  have hA := acct_runOps cfg hM hF ops hops (VFFS.new rootSize mount t0) s'
    (acct_new cfg rootSize mount t0) h
  exact ⟨hA.2.2.2.2.2.2.1, hA.2.2.2.2.2.2.2⟩

/-- A concrete size-free workload for the C3 witness: create, write, mkdir,
a size-less setattr, rename and unlink. -/
def c3OkOps : List (Timespec × Op) :=
  [((0, 0), Op.create 1 "f" 0o644 0 0 0),
   ((1, 0), Op.write 2 [104, 105]),
   ((2, 0), Op.mkdir 1 "d" 0o755 0 0 0),
   ((3, 0), Op.setattr 2 (some 0o600) none none none none),
   ((4, 0), Op.rename 1 "f" 3 "g"),
   ((5, 0), Op.unlink 3 "g")]

/-- The state reached by `c3OkOps` (defaulting to the start state, never
used). -/
def c3OkS : VFFS := (runOps cfgT fs0 c3OkOps).getD fs0

theorem c3_capacity_invariant_witness :
    (cfgT.maxMemory < 2 ^ 63 ∧ cfgT.maxFileSize < 2 ^ 63 ∧
      (∀ p ∈ c3OkOps, noSetattrSize p.2 = true) ∧
      runOps cfgT fs0 c3OkOps = some c3OkS) ∧
    c3OkS.size ≤ cfgT.maxMemory ∧ FilesCapped cfgT c3OkS :=
  ⟨⟨by decide, by decide, by decide, by decide⟩,
    c3_capacity_invariant cfgT 0 "root" (0, 0) c3OkOps c3OkS (by decide) (by decide)
      (by decide) (by decide)⟩
/-- Filtering out the entries carrying some inode id other than the found
entry's does not change a `findByName` result: any dropped entry before the
first match does not bear the searched name. -/
theorem findByName_filter_ne (l : List (Nat × String × FType)) (n : String)
    (e : Nat × String × FType) (k : Nat) (h : findByName l n = some e) (hk : e.1 ≠ k) :
    findByName (List.filter (fun x => x.1 != k) l) n = some e := by
  induction l with
  | nil => simp [findByName] at h
  | cons a t ih =>
    rw [findByName] at h
    by_cases ha : a.2.1 = n
    · rw [if_pos ha] at h
      injection h with h2
      subst h2
      have hak : (a.1 != k) = true := by simpa using hk
      rw [List.filter_cons, if_pos hak, findByName, if_pos ha]
    · rw [if_neg ha] at h
      have ht := ih h
      by_cases hak : (a.1 != k) = true
      · rw [List.filter_cons, if_pos hak, findByName, if_neg ha]
        exact ht
      · rw [List.filter_cons, if_neg hak]
        exact ht

/-- C6: `rename` semantics on a well-formed scenario: both parents are
existing directories, the source entry exists under `name`, the source
inode is in the store and distinct from both parents, and the store is
well-keyed. (a) A target under `newName` naming the source inode itself
makes the call a successful no-op; (b) a target that is a directory with
a non-empty children list makes the call return ENOTEMPTY with the store
unchanged; with no target the call succeeds, removes the source entry
from `parent`'s children, appends `(src, newName, kind)` to `newParent`'s
children and renames the source payload — stated for distinct parents (c)
and for a rename within one directory (d); with a target that is a file
or an empty directory (distinct from the parents and the source), the
call succeeds, additionally removing the target from the store and from
`newParent`'s children — again for distinct parents (e) and within one
directory (f). -/
theorem c6_rename_semantics (s : VFFS) (parent newParent : Nat) (name newName : String)
    (now : Timespec) (pI npI srcI : Inode) (pDir npDir : Directory)
    (srcE : Nat × String × FType)
    (hnew : newName.utf8ByteSize ≤ MAX_NODE_NAME_LENGTH)
    (hnd : keysNodup s.inodes)
    (hp : lookupInode s.inodes parent = some pI)
    (hpd : pI.data = InodeData.directory pDir)
    (hfind : pDir.find_node_by_name name = some srcE)
    (hnp : lookupInode s.inodes newParent = some npI)
    (hnpd : npI.data = InodeData.directory npDir)
    (hsrcI : lookupInode s.inodes srcE.1 = some srcI)
    (hs1 : srcE.1 ≠ parent) (hs2 : srcE.1 ≠ newParent) :
    (∀ tgtE, npDir.find_node_by_name newName = some tgtE → tgtE.1 = srcE.1 →
      s.rename parent name newParent newName now = (s, EmptyReply.ok)) ∧
    (∀ tgtE tgtI td, npDir.find_node_by_name newName = some tgtE → tgtE.1 ≠ srcE.1 →
      lookupInode s.inodes tgtE.1 = some tgtI → tgtI.data = InodeData.directory td →
      td.nodes ≠ [] →
      s.rename parent name newParent newName now = (s, EmptyReply.error Errno.ENOTEMPTY)) ∧
    (npDir.find_node_by_name newName = none → parent ≠ newParent →
      (s.rename parent name newParent newName now).2 = EmptyReply.ok ∧
      childrenOf (s.rename parent name newParent newName now).1 parent
        = some (List.filter (fun x => x.1 != srcE.1) pDir.nodes) ∧
      childrenOf (s.rename parent name newParent newName now).1 newParent
        = some (npDir.nodes ++ [(srcE.1, newName, srcE.2.2)]) ∧
      Option.map Inode.get_name
          (lookupInode (s.rename parent name newParent newName now).1.inodes srcE.1)
        = some newName) ∧
    (npDir.find_node_by_name newName = none → parent = newParent →
      (s.rename parent name newParent newName now).2 = EmptyReply.ok ∧
      childrenOf (s.rename parent name newParent newName now).1 parent
        = some (List.filter (fun x => x.1 != srcE.1) pDir.nodes
            ++ [(srcE.1, newName, srcE.2.2)]) ∧
      Option.map Inode.get_name
          (lookupInode (s.rename parent name newParent newName now).1.inodes srcE.1)
        = some newName) ∧
    (∀ tgtE tgtI, npDir.find_node_by_name newName = some tgtE → parent ≠ newParent →
      tgtE.1 ≠ srcE.1 → tgtE.1 ≠ parent → tgtE.1 ≠ newParent →
      lookupInode s.inodes tgtE.1 = some tgtI →
      (∀ td, tgtI.data = InodeData.directory td → td.nodes = []) →
      (s.rename parent name newParent newName now).2 = EmptyReply.ok ∧
      lookupInode (s.rename parent name newParent newName now).1.inodes tgtE.1 = none ∧
      childrenOf (s.rename parent name newParent newName now).1 parent
        = some (List.filter (fun x => x.1 != srcE.1) pDir.nodes) ∧
      childrenOf (s.rename parent name newParent newName now).1 newParent
        = some (List.filter (fun x => x.1 != tgtE.1) npDir.nodes
            ++ [(srcE.1, newName, srcE.2.2)]) ∧
      Option.map Inode.get_name
          (lookupInode (s.rename parent name newParent newName now).1.inodes srcE.1)
        = some newName) ∧
    (∀ tgtE tgtI, npDir.find_node_by_name newName = some tgtE → parent = newParent →
      tgtE.1 ≠ srcE.1 → tgtE.1 ≠ parent →
      lookupInode s.inodes tgtE.1 = some tgtI →
      (∀ td, tgtI.data = InodeData.directory td → td.nodes = []) →
      (s.rename parent name newParent newName now).2 = EmptyReply.ok ∧
      lookupInode (s.rename parent name newParent newName now).1.inodes tgtE.1 = none ∧
      childrenOf (s.rename parent name newParent newName now).1 parent
        = some (List.filter (fun x => x.1 != srcE.1)
              (List.filter (fun x => x.1 != tgtE.1) pDir.nodes)
            ++ [(srcE.1, newName, srcE.2.2)]) ∧
      Option.map Inode.get_name
          (lookupInode (s.rename parent name newParent newName now).1.inodes srcE.1)
        = some newName) := by
  have hlen : ¬ MAX_NODE_NAME_LENGTH < newName.utf8ByteSize := not_lt.mpr hnew
  refine ⟨?_, ?_, ?_, ?_, ?_, ?_⟩
  · intro tgtE hfT heq
    simp only [VFFS.rename, if_neg hlen, hp, hpd, hfind, hnp, hnpd, hfT, if_pos heq]
  · intro tgtE tgtI td hfT hne hlkT hdT hnonempty
    have hemp : ¬ td.nodes.isEmpty = true := by
      simp only [List.isEmpty_iff]
      exact hnonempty
    simp only [VFFS.rename, if_neg hlen, hp, hpd, hfind, hnp, hnpd, hfT, if_neg hne,
      hlkT, hdT, if_neg hemp]
  · intro hfT hpnp
    have hnp2 : lookupInode (insertInode s.inodes parent { pI with updated_at := now, metadata_change_at := now, data := InodeData.directory { pDir with nodes := List.filter (fun x => x.1 != srcE.1) pDir.nodes } }) newParent = some npI := by
      rw [lookupInode_insert_ne _ _ _ _ (Ne.symm hpnp)]
      exact hnp
    have hsrc2 : lookupInode (insertInode (insertInode s.inodes parent { pI with updated_at := now, metadata_change_at := now, data := InodeData.directory { pDir with nodes := List.filter (fun x => x.1 != srcE.1) pDir.nodes } }) newParent { npI with updated_at := now, metadata_change_at := now, data := InodeData.directory (Directory.add_node npDir (srcE.1, newName, srcE.2.2)) }) srcE.1 = some srcI := by
      rw [lookupInode_insert_ne _ _ _ _ hs2, lookupInode_insert_ne _ _ _ _ hs1]
      exact hsrcI
    simp only [VFFS.rename, if_neg hlen, hp, hpd, hfind, hnp, hnpd, hfT,
      VFFS.rename_commit, Inode.update_changes, hnp2, hsrc2]
    refine ⟨trivial, ?_, ?_, ?_⟩
    · simp only [childrenOf, lookupInode_insert_ne _ _ _ _ (Ne.symm hs1),
        lookupInode_insert_ne _ _ _ _ hpnp, lookupInode_insert_self]
    · simp only [childrenOf, lookupInode_insert_ne _ _ _ _ (Ne.symm hs2),
        lookupInode_insert_self, Directory.add_node]
    · simp only [lookupInode_insert_self]
      rcases hsd : srcI.data with f3 | d3 <;> simp [Inode.get_name, hsd]
  · intro hfT hpe
    subst hpe
    rw [hp] at hnp
    injection hnp with h2
    subst h2
    rw [hpd] at hnpd
    injection hnpd with h3
    subst h3
    have hsrc2 : lookupInode (insertInode (insertInode s.inodes parent { pI with updated_at := now, metadata_change_at := now, data := InodeData.directory { pDir with nodes := List.filter (fun x => x.1 != srcE.1) pDir.nodes } }) parent { pI with updated_at := now, metadata_change_at := now, data := InodeData.directory (Directory.add_node { pDir with nodes := List.filter (fun x => x.1 != srcE.1) pDir.nodes } (srcE.1, newName, srcE.2.2)) }) srcE.1 = some srcI := by
      rw [lookupInode_insert_ne _ _ _ _ hs1, lookupInode_insert_ne _ _ _ _ hs1]
      exact hsrcI
    simp only [VFFS.rename, if_neg hlen, hp, hpd, hfind, hfT, VFFS.rename_commit,
      Inode.update_changes, lookupInode_insert_self, hsrc2]
    refine ⟨trivial, ?_, ?_⟩
    · simp only [childrenOf, lookupInode_insert_ne _ _ _ _ (Ne.symm hs1),
        lookupInode_insert_self, Directory.add_node]
    · rcases hsd : srcI.data with f3 | d3 <;> simp [Inode.get_name, hsd]
  · intro tgtE tgtI hfT hpnp hne htp htnp hlkT hempdir
    have hwrap : s.rename parent name newParent newName now
        = s.rename_commit parent name newParent newName srcE.1 (some tgtE.1) now := by
      rcases hdt : tgtI.data with fT | td
      · simp only [VFFS.rename, if_neg hlen, hp, hpd, hfind, hnp, hnpd, hfT, if_neg hne,
          hlkT, hdt]
      · have hempty : td.nodes.isEmpty = true := by
          simp only [List.isEmpty_iff]
          exact hempdir td hdt
        simp only [VFFS.rename, if_neg hlen, hp, hpd, hfind, hnp, hnpd, hfT, if_neg hne,
          hlkT, hdt, if_pos hempty]
    rw [hwrap]
    have hE : lookupInode (eraseInode s.inodes tgtE.1) newParent = some npI := by
      rw [lookupInode_erase_ne s.inodes tgtE.1 newParent (Ne.symm htnp)]
      exact hnp
    have hA1 : lookupInode (insertInode (eraseInode s.inodes tgtE.1) newParent { npI with data := InodeData.directory { npDir with nodes := List.filter (fun x => x.1 != tgtE.1) npDir.nodes } }) parent = some pI := by
      rw [lookupInode_insert_ne _ _ _ _ hpnp,
        lookupInode_erase_ne s.inodes tgtE.1 parent (Ne.symm htp)]
      exact hp
    have hB1 : lookupInode (insertInode (insertInode (eraseInode s.inodes tgtE.1) newParent { npI with data := InodeData.directory { npDir with nodes := List.filter (fun x => x.1 != tgtE.1) npDir.nodes } }) parent { pI with updated_at := now, metadata_change_at := now, data := InodeData.directory { pDir with nodes := List.filter (fun x => x.1 != srcE.1) pDir.nodes } }) newParent = some { npI with data := InodeData.directory { npDir with nodes := List.filter (fun x => x.1 != tgtE.1) npDir.nodes } } := by
      rw [lookupInode_insert_ne _ _ _ _ (Ne.symm hpnp), lookupInode_insert_self]
    have hC1 : lookupInode (insertInode (insertInode (insertInode (eraseInode s.inodes tgtE.1) newParent { npI with data := InodeData.directory { npDir with nodes := List.filter (fun x => x.1 != tgtE.1) npDir.nodes } }) parent { pI with updated_at := now, metadata_change_at := now, data := InodeData.directory { pDir with nodes := List.filter (fun x => x.1 != srcE.1) pDir.nodes } }) newParent { npI with updated_at := now, metadata_change_at := now, data := InodeData.directory (Directory.add_node { npDir with nodes := List.filter (fun x => x.1 != tgtE.1) npDir.nodes } (srcE.1, newName, srcE.2.2)) }) srcE.1 = some srcI := by
      rw [lookupInode_insert_ne _ _ _ _ hs2, lookupInode_insert_ne _ _ _ _ hs1,
        lookupInode_insert_ne _ _ _ _ hs2,
        lookupInode_erase_ne s.inodes tgtE.1 srcE.1 (Ne.symm hne)]
      exact hsrcI
    simp only [VFFS.rename_commit, VFFS.remove_inode, hlkT, hE, hnpd,
      Inode.update_changes, hA1, hpd, hfind, hB1, hC1]
    refine ⟨trivial, ?_, ?_, ?_, ?_⟩
    · simp only [lookupInode_insert_ne _ _ _ _ hne, lookupInode_insert_ne _ _ _ _ htnp,
        lookupInode_insert_ne _ _ _ _ htp, lookupInode_erase_self s.inodes tgtE.1 hnd]
    · simp only [childrenOf, lookupInode_insert_ne _ _ _ _ (Ne.symm hs1),
        lookupInode_insert_ne _ _ _ _ hpnp, lookupInode_insert_self]
    · simp only [childrenOf, lookupInode_insert_ne _ _ _ _ (Ne.symm hs2),
        lookupInode_insert_self, Directory.add_node]
    · simp only [lookupInode_insert_self]
      rcases hsd : srcI.data with f3 | d3 <;> simp [Inode.get_name, hsd]
  · intro tgtE tgtI hfT hpe hne htp0 hlkT hempdir
    subst hpe
    rw [hp] at hnp
    injection hnp with h2
    subst h2
    rw [hpd] at hnpd
    injection hnpd with h3
    subst h3
    have hwrap : s.rename parent name parent newName now
        = s.rename_commit parent name parent newName srcE.1 (some tgtE.1) now := by
      rcases hdt : tgtI.data with fT | td
      · simp only [VFFS.rename, if_neg hlen, hp, hpd, hfind, hfT, if_neg hne, hlkT, hdt]
      · have hempty : td.nodes.isEmpty = true := by
          simp only [List.isEmpty_iff]
          exact hempdir td hdt
        simp only [VFFS.rename, if_neg hlen, hp, hpd, hfind, hfT, if_neg hne, hlkT, hdt,
          if_pos hempty]
    rw [hwrap]
    have hsne : srcE.1 ≠ tgtE.1 := Ne.symm hne
    have hfindF : findByName (List.filter (fun x => x.1 != tgtE.1) pDir.nodes) name
        = some srcE := findByName_filter_ne pDir.nodes name srcE tgtE.1 hfind hsne
    have hE : lookupInode (eraseInode s.inodes tgtE.1) parent = some pI := by
      rw [lookupInode_erase_ne s.inodes tgtE.1 parent (Ne.symm htp0)]
      exact hp
    have hC1 : lookupInode (insertInode (insertInode (insertInode (eraseInode s.inodes tgtE.1) parent { pI with data := InodeData.directory { pDir with nodes := List.filter (fun x => x.1 != tgtE.1) pDir.nodes } }) parent { pI with updated_at := now, metadata_change_at := now, data := InodeData.directory { name := pDir.name, nodes := List.filter (fun x => x.1 != srcE.1) (List.filter (fun x => x.1 != tgtE.1) pDir.nodes) } }) parent { pI with updated_at := now, metadata_change_at := now, data := InodeData.directory (Directory.add_node { name := pDir.name, nodes := List.filter (fun x => x.1 != srcE.1) (List.filter (fun x => x.1 != tgtE.1) pDir.nodes) } (srcE.1, newName, srcE.2.2)) }) srcE.1 = some srcI := by
      rw [lookupInode_insert_ne _ _ _ _ hs1, lookupInode_insert_ne _ _ _ _ hs1,
        lookupInode_insert_ne _ _ _ _ hs1,
        lookupInode_erase_ne s.inodes tgtE.1 srcE.1 hsne]
      exact hsrcI
    simp only [VFFS.rename_commit, VFFS.remove_inode, hlkT, hE, hpd,
      Inode.update_changes, lookupInode_insert_self, Directory.find_node_by_name,
      hfindF, hC1]
    refine ⟨trivial, ?_, ?_, ?_⟩
    · simp only [lookupInode_insert_ne _ _ _ _ hne, lookupInode_insert_ne _ _ _ _ htp0,
        lookupInode_erase_self s.inodes tgtE.1 hnd]
    · simp only [childrenOf, lookupInode_insert_ne _ _ _ _ (Ne.symm hs1),
        lookupInode_insert_self, Directory.add_node]
    · rcases hsd : srcI.data with f3 | d3 <;> simp [Inode.get_name, hsd]
/-- C6 witness scenario: `/a` (file, inode 2), `/d` (directory, inode 3)
and `/d/b` (file, inode 4). -/
def c6Ops : List (Timespec × Op) :=
  [((0, 0), Op.create 1 "a" 0o644 0 0 0),
   ((1, 0), Op.mkdir 1 "d" 0o755 0 0 0),
   ((2, 0), Op.create 3 "b" 0o644 0 0 0)]

/-- The C6 witness state (defaulting to the start state, never used). -/
def c6S : VFFS := (runOps cfgT fs0 c6Ops).getD fs0

/-- The root inode of `c6S`. -/
def c6pI : Inode := (lookupInode c6S.inodes 1).getD (Inode.mkRoot 0 "z" (0, 0))

/-- The root directory payload of `c6S`. -/
def c6pDir : Directory :=
  match c6pI.data with
  | InodeData.directory d => d
  | InodeData.file _ => { name := "", nodes := [] }

/-- The `/d` inode of `c6S`. -/
def c6npI : Inode := (lookupInode c6S.inodes 3).getD (Inode.mkRoot 0 "z" (0, 0))

/-- The `/d` directory payload of `c6S`. -/
def c6npDir : Directory :=
  match c6npI.data with
  | InodeData.directory d => d
  | InodeData.file _ => { name := "", nodes := [] }

/-- The `/a` inode of `c6S`. -/
def c6srcI : Inode := (lookupInode c6S.inodes 2).getD (Inode.mkRoot 0 "z" (0, 0))

/-- The `/d/b` inode of `c6S`. -/
def c6tgtI : Inode := (lookupInode c6S.inodes 4).getD (Inode.mkRoot 0 "z" (0, 0))

/-- `c6S` with an extra file `/d/e` (inode 5), for the same-directory
target-replacing rename. -/
def c6S2 : VFFS := (c6S.create 3 "e" 0o644 0 0 0 (3, 0)).1

/-- The `/d` inode of `c6S2`. -/
def c6pI2 : Inode := (lookupInode c6S2.inodes 3).getD (Inode.mkRoot 0 "z" (0, 0))

/-- The `/d` directory payload of `c6S2`. -/
def c6pDir2 : Directory :=
  match c6pI2.data with
  | InodeData.directory d => d
  | InodeData.file _ => { name := "", nodes := [] }

/-- The `/d/e` inode of `c6S2`. -/
def c6srcI2 : Inode := (lookupInode c6S2.inodes 5).getD (Inode.mkRoot 0 "z" (0, 0))

/-- The `/d/b` inode of `c6S2`. -/
def c6tgtI2 : Inode := (lookupInode c6S2.inodes 4).getD (Inode.mkRoot 0 "z" (0, 0))

theorem c6_rename_semantics_witness :
    ("b".utf8ByteSize ≤ MAX_NODE_NAME_LENGTH ∧ keysNodup c6S.inodes ∧
      lookupInode c6S.inodes 1 = some c6pI ∧ c6pI.data = InodeData.directory c6pDir ∧
      c6pDir.find_node_by_name "a" = some (2, "a", FType.file) ∧
      lookupInode c6S.inodes 3 = some c6npI ∧ c6npI.data = InodeData.directory c6npDir ∧
      lookupInode c6S.inodes 2 = some c6srcI ∧
      c6npDir.find_node_by_name "b" = some (4, "b", FType.file) ∧
      lookupInode c6S.inodes 4 = some c6tgtI ∧
      lookupInode c6S2.inodes 3 = some c6pI2 ∧
      c6pDir2.find_node_by_name "e" = some (5, "e", FType.file)) ∧
    ((c6S.rename 1 "a" 3 "b" (9, 0)).2 = EmptyReply.ok ∧
      lookupInode (c6S.rename 1 "a" 3 "b" (9, 0)).1.inodes 4 = none ∧
      childrenOf (c6S.rename 1 "a" 3 "b" (9, 0)).1 1
        = some (List.filter (fun x => x.1 != 2) c6pDir.nodes) ∧
      childrenOf (c6S.rename 1 "a" 3 "b" (9, 0)).1 3
        = some (List.filter (fun x => x.1 != 4) c6npDir.nodes ++ [(2, "b", FType.file)]) ∧
      Option.map Inode.get_name (lookupInode (c6S.rename 1 "a" 3 "b" (9, 0)).1.inodes 2)
        = some "b") ∧
    ((c6S.rename 1 "a" 1 "c" (8, 0)).2 = EmptyReply.ok ∧
      childrenOf (c6S.rename 1 "a" 1 "c" (8, 0)).1 1
        = some (List.filter (fun x => x.1 != 2) c6pDir.nodes ++ [(2, "c", FType.file)]) ∧
      Option.map Inode.get_name (lookupInode (c6S.rename 1 "a" 1 "c" (8, 0)).1.inodes 2)
        = some "c") ∧
    ((c6S2.rename 3 "e" 3 "b" (9, 0)).2 = EmptyReply.ok ∧
      lookupInode (c6S2.rename 3 "e" 3 "b" (9, 0)).1.inodes 4 = none ∧
      childrenOf (c6S2.rename 3 "e" 3 "b" (9, 0)).1 3
        = some (List.filter (fun x => x.1 != 5)
              (List.filter (fun x => x.1 != 4) c6pDir2.nodes)
            ++ [(5, "b", FType.file)]) ∧
      Option.map Inode.get_name (lookupInode (c6S2.rename 3 "e" 3 "b" (9, 0)).1.inodes 5)
        = some "b") :=
  ⟨⟨by decide, by decide, by decide, by decide, by decide, by decide, by decide,
    by decide, by decide, by decide, by decide, by decide⟩,
    (c6_rename_semantics c6S 1 3 "a" "b" (9, 0) c6pI c6npI c6srcI c6pDir c6npDir
        (2, "a", FType.file) (by decide) (by decide) (by decide) (by decide) (by decide)
        (by decide) (by decide) (by decide) (by decide) (by decide)).2.2.2.2.1
      (4, "b", FType.file) c6tgtI (by decide) (by decide) (by decide) (by decide)
      (by decide) (by decide)
      (fun td htd => by
        rw [(by decide : c6tgtI.data = InodeData.file { name := "b", data := [] })] at htd
        exact InodeData.noConfusion htd),
    (c6_rename_semantics c6S 1 1 "a" "c" (8, 0) c6pI c6pI c6srcI c6pDir c6pDir
        (2, "a", FType.file) (by decide) (by decide) (by decide) (by decide) (by decide)
        (by decide) (by decide) (by decide) (by decide) (by decide)).2.2.2.1
      (by decide) rfl,
    (c6_rename_semantics c6S2 3 3 "e" "b" (9, 0) c6pI2 c6pI2 c6srcI2 c6pDir2 c6pDir2
        (5, "e", FType.file) (by decide) (by decide) (by decide) (by decide) (by decide)
        (by decide) (by decide) (by decide) (by decide) (by decide)).2.2.2.2.2
      (4, "b", FType.file) c6tgtI2 (by decide) rfl (by decide) (by decide) (by decide)
      (fun td htd => by
        rw [(by decide : c6tgtI2.data = InodeData.file { name := "b", data := [] })] at htd
        exact InodeData.noConfusion htd)⟩
